import Mathlib

/-!
Verification of the movingpandas `Trajectory` core (src/movingpandas/trajectory.py)
against its natural-language specification.

The DataFrame backing a trajectory is embedded as a list of rows.  Each row
carries a timestamp (rationals standing for seconds since the epoch, so that
pandas `Timedelta.total_seconds()` is plain subtraction), a geometry cell
(which, as in pandas, may fail to be a valid point), and an ordered list of
named attribute cells (the non-geometry DataFrame columns, in column order).

External collaborators that the spec declares out of scope (the geodesy
library providing great-circle/Euclidean distance and bearings, the unit
conversion resolver) are threaded through as explicit function/record
parameters, exactly as the source receives them through imports and the
`conversion` argument.  Floating point is modelled by rationals; `NaN`/`NaT`
cells are modelled by an explicit `missing` cell value, matching pandas where
`NaN` is the missing-data marker.
-/

set_option maxRecDepth 4096

/-- A valid 2D point (shapely `Point`). -/
structure Pt where
  x : ℚ
  y : ℚ
  deriving DecidableEq, Repr

/-- A geometry cell: either a valid point or some non-point value
(e.g. `None` or a corrupt entry), which the source guards against with
`isinstance(pt, Point)`. -/
inductive Geom where
  | pt (p : Pt)
  | invalid
  deriving DecidableEq, Repr

/-- An attribute cell of the DataFrame: a float, a Timedelta, a stored
geometry (the transient `prev_pt` column), or missing data (`NaN`/`NaT`). -/
inductive CellVal where
  | num (q : ℚ)
  | tdelta (d : ℚ)
  | geom (g : Geom)
  | missing
  deriving DecidableEq, Repr

/-- One row of the trajectory DataFrame: timestamp index value, geometry
column, and the remaining named columns in order. -/
structure Row where
  t : ℚ
  geom : Geom
  attrs : List (String × CellVal)
  deriving DecidableEq, Repr

/-- Python exception classes raised by the modelled code paths. -/
inductive PyErr where
  | valueError (msg : String)
  | runtimeError (msg : String)
  | zeroDivision
  | keyError
  | indexError
  | attributeError
  deriving DecidableEq, Repr

/-- The external geodesy/geometry functions imported from
`geometry_utils` (out of scope per the spec, specified only by interface). -/
structure GeoCtx where
  measure_distance_geodesic : Pt → Pt → ℚ
  measure_distance_euclidean : Pt → Pt → ℚ
  calculate_initial_compass_bearing : Pt → Pt → ℚ
  azimuth : Pt → Pt → ℚ
  angular_difference : ℚ → ℚ → ℚ

/-- The unit-conversion value object produced by `unit_utils.get_conversion`
(out of scope per the spec): multiplicative factors applied to distances and
times. -/
structure Conversion where
  crs : ℚ
  distance : ℚ
  time : ℚ
  time2 : ℚ
  deriving DecidableEq, Repr

/-- Look up a named attribute cell in a row (pandas `row[name]`,
returning `none` where pandas would raise a `KeyError`). -/
def lookupAttr (r : Row) (name : String) : Option CellVal :=
  (r.attrs.find? (fun p => p.1 = name)).map (fun p => p.2)

/-- Set a named cell on one row, mirroring pandas column assignment:
an existing column is overwritten in place, a new column is appended at the
end of the column order. -/
def rowSet (r : Row) (name : String) (v : CellVal) : Row :=
  if r.attrs.any (fun p => p.1 = name) then
    { r with attrs := r.attrs.map (fun p => if p.1 = name then (name, v) else p) }
  else
    { r with attrs := r.attrs ++ [(name, v)] }

/-- Column-wise assignment `df[name] = vals` over all rows. -/
def setColVals (rows : List Row) (name : String) (vals : List CellVal) : List Row :=
  List.zipWith (fun r v => rowSet r name v) rows vals

/-- `df.drop(columns=[name])`. -/
def dropCol (rows : List Row) (name : String) : List Row :=
  rows.map (fun r => { r with attrs := r.attrs.filter (fun p => p.1 ≠ name) })

/-- `df.at[t0, name] = v`: assign the cell at the row(s) whose index label
equals `t0`. -/
def setAtTime (rows : List Row) (t0 : ℚ) (name : String) (v : CellVal) : List Row :=
  rows.map (fun r => if r.t = t0 then rowSet r name v else r)

/-- The DataFrame column-name list (empty DataFrames have no rows in this
embedding, so the column set is read off the first row). -/
def dfColumns (rows : List Row) : List String :=
  match rows with
  | [] => []
  | r :: _ => r.attrs.map (fun p => p.1)

/-- `Series.shift()` of a column of cells: the first row becomes missing and
every other row receives its predecessor value. -/
def shiftVals (vals : List CellVal) : List CellVal :=
  match vals with
  | [] => []
  | _ :: _ => CellVal.missing :: vals.dropLast

/-- `self.df.assign(prev_pt=self.df.geometry.shift())` (`_add_prev_pt` /
the `temp_df.assign` calls in the metric pipelines). -/
def assignPrevPt (rows : List Row) : List Row :=
  setColVals rows "prev_pt" (shiftVals (rows.map (fun r => CellVal.geom r.geom)))

/-- `df.index.min()` (`get_start_time`). -/
def startTime (rows : List Row) : ℚ :=
  match rows with
  | [] => 0
  | r :: rs => rs.foldl (fun a x => min a x.t) r.t

/-- `df.index.max()` (`get_end_time`). -/
def endTime (rows : List Row) : ℚ :=
  match rows with
  | [] => 0
  | r :: rs => rs.foldl (fun a x => max a x.t) r.t

/-- Sequential, fail-fast effectful map: `DataFrame.apply(f, axis=1)`, which
evaluates rows in order and propagates the first raised exception. -/
def mapRows (f : Row → Except PyErr α) : List Row → Except PyErr (List α)
  | [] => .ok []
  | r :: rs =>
    match f r with
    | .error e => .error e
    | .ok v =>
      match mapRows f rs with
      | .error e => .error e
      | .ok vs => .ok (v :: vs)

/-- `_compute_distance(self, row, conversion)`: per-step distance between
`row["prev_pt"]` and the row geometry. -/
def compute_distance (ctx : GeoCtx) (is_latlon : Bool) (conversion : Conversion)
    (r : Row) : Except PyErr ℚ :=
  match lookupAttr r "prev_pt" with
  | some (CellVal.geom (Geom.pt pt0)) =>
    match r.geom with
    | Geom.invalid => .error (.valueError "Invalid trajectory! Got a non-point instead of point!")
    | Geom.pt pt1 =>
      if pt0 = pt1 then .ok 0
      else if is_latlon then
        .ok (ctx.measure_distance_geodesic pt0 pt1 * conversion.crs / conversion.distance)
      else
        .ok (ctx.measure_distance_euclidean pt0 pt1 * conversion.crs / conversion.distance)
  | _ => .ok 0

/-- `_compute_speed(self, row, conversion)`: per-step distance divided by
`row["delta_t"].total_seconds()`.  A zero `delta_t` makes the final Python
float division raise `ZeroDivisionError`; a missing (`NaT`) `delta_t`
propagates as a missing (`NaN`) result. -/
def compute_speed (ctx : GeoCtx) (is_latlon : Bool) (conversion : Conversion)
    (r : Row) : Except PyErr CellVal :=
  match lookupAttr r "prev_pt" with
  | some (CellVal.geom (Geom.pt pt0)) =>
    match r.geom with
    | Geom.invalid => .error (.valueError "Invalid trajectory! Got a non-point instead of point!")
    | Geom.pt pt1 =>
      if pt0 = pt1 then .ok (.num 0)
      else
        let dist_computed :=
          if is_latlon then
            ctx.measure_distance_geodesic pt0 pt1 * conversion.crs / conversion.distance
          else
            ctx.measure_distance_euclidean pt0 pt1 * conversion.crs / conversion.distance
        match lookupAttr r "delta_t" with
        | some (CellVal.tdelta dt) =>
          if dt = 0 then .error .zeroDivision
          else .ok (.num (dist_computed / dt * conversion.time))
        | some CellVal.missing => .ok .missing
        | _ => .error .keyError
  | _ => .ok (.num 0)

/-- `_compute_heading(self, row)`: bearing between `row["prev_pt"]` and the
row geometry.  When the previous point is valid but the current geometry is
not a point, the external bearing computation cannot proceed; modelled from
the spec, such an invalid position encountered in a pairwise computation
propagates as an error. -/
def compute_heading (ctx : GeoCtx) (is_latlon : Bool) (r : Row) : Except PyErr ℚ :=
  match lookupAttr r "prev_pt" with
  | some (CellVal.geom (Geom.pt pt0)) =>
    match r.geom with
    | Geom.invalid => .error .attributeError
    | Geom.pt pt1 =>
      if pt0 = pt1 then .ok 0
      else if is_latlon then .ok (ctx.calculate_initial_compass_bearing pt0 pt1)
      else .ok (ctx.azimuth pt0 pt1)
  | _ => .ok 0

/-- `_compute_angular_difference(self, row)`: smaller absolute angle between
`row["prev_direction"]` and `row["direction"]`.  A missing (`NaN`) operand
never compares equal and propagates as a missing result through the external
`angular_difference`. -/
def compute_angular_difference (ctx : GeoCtx) (r : Row) : Except PyErr CellVal :=
  match lookupAttr r "prev_direction", lookupAttr r "direction" with
  | some v1, some v2 =>
    match v1, v2 with
    | .num d1, .num d2 =>
      if d1 = d2 then .ok (.num 0) else .ok (.num (ctx.angular_difference d1 d2))
    | _, _ => .ok .missing
  | _, _ => .error .keyError

/-- The `Trajectory` facade state: the backing DataFrame rows, the resolved
`is_latlon` flag, identifiers, the provenance parent link, and the
`<metric>_col_name` bookkeeping attributes set by the add operations. -/
structure Traj where
  rows : List Row
  is_latlon : Bool
  id : String
  parent : Option String := none
  distance_col_name : Option String := none
  speed_col_name : Option String := none
  acceleration_col_name : Option String := none
  direction_col_name : Option String := none
  angular_difference_col_name : Option String := none
  timedelta_col_name : Option String := none
  deriving DecidableEq, Repr

/-- `is_valid(self)`. -/
def traj_is_valid (T : Traj) : Bool :=
  if T.rows.length < 2 then false
  else decide (startTime T.rows < endTime T.rows)

/-- `Series(index=df.index, data=df.index).diff()` values used by
`_get_df_with_timedelta`: `NaT` for the first row, `t[i] - t[i-1]`
otherwise. -/
def timedeltaVals (rows : List Row) : List CellVal :=
  match rows with
  | [] => []
  | _ :: tl => CellVal.missing :: List.zipWith (fun a b => CellVal.tdelta (b.t - a.t)) rows tl

/-- `_get_df_with_timedelta(self, name)`. -/
def get_df_with_timedelta (rows : List Row) (name : String) : List Row :=
  setColVals rows name (timedeltaVals rows)

/-- Shared tail of the metric pipelines:
`temp_df.at[get_start_time(), name] = temp_df.iloc[1][name]`
(read the computed cell of the second row, then overwrite the first row; the
read raises `IndexError`/`KeyError` if the DataFrame is too small or the
column is absent). -/
def copySecondRowToFirst (rows : List Row) (name : String) : Except PyErr (List Row) :=
  match rows[1]? with
  | none => .error .indexError
  | some r1 =>
    match lookupAttr r1 name with
    | none => .error .keyError
    | some v => .ok (setAtTime rows (startTime rows) name v)

/-- `_get_df_with_distance(self, conversion, name)`. -/
def get_df_with_distance (ctx : GeoCtx) (is_latlon : Bool) (conversion : Conversion)
    (rows : List Row) (name : String) : Except PyErr (List Row) :=
  let temp := assignPrevPt rows
  match mapRows (compute_distance ctx is_latlon conversion) temp with
  | .error e => .error e
  | .ok vals =>
    let temp := setColVals temp name (vals.map CellVal.num)
    let temp := setAtTime temp (startTime temp) name (.num 0)
    .ok (dropCol temp "prev_pt")

/-- `_get_df_with_speed(self, conversion, name)`. -/
def get_df_with_speed (ctx : GeoCtx) (is_latlon : Bool) (conversion : Conversion)
    (rows : List Row) (name : String) : Except PyErr (List Row) :=
  let temp := get_df_with_timedelta rows "delta_t"
  let temp := assignPrevPt temp
  match mapRows (compute_speed ctx is_latlon conversion) temp with
  | .error e => .error e
  | .ok vals =>
    let temp := setColVals temp name vals
    match copySecondRowToFirst temp name with
    | .error e => .error e
    | .ok temp => .ok (dropCol (dropCol temp "prev_pt") "delta_t")

/-- The vectorized acceleration column of `_get_df_with_acceleration`:
`speed.diff() / index.diff().total_seconds() * conversion.time2`
(`NaN` in the first row; `NaN` operands propagate).  The index is strictly
increasing for every constructed trajectory, so the denominator of a
consecutive-row difference is never zero. -/
def accelVals (rows : List Row) (time2 : ℚ) : List CellVal :=
  match rows with
  | [] => []
  | _ :: tl =>
    CellVal.missing :: List.zipWith (fun a b =>
      match lookupAttr a "speed_temp", lookupAttr b "speed_temp" with
      | some (CellVal.num v0), some (CellVal.num v1) =>
        CellVal.num ((v1 - v0) / (b.t - a.t) * time2)
      | _, _ => CellVal.missing) rows tl

/-- `_get_df_with_acceleration(self, conversion, name)`. -/
def get_df_with_acceleration (ctx : GeoCtx) (is_latlon : Bool) (conversion : Conversion)
    (rows : List Row) (name : String) : Except PyErr (List Row) :=
  match get_df_with_speed ctx is_latlon conversion rows "speed_temp" with
  | .error e => .error e
  | .ok temp =>
    let temp := setColVals temp name (accelVals temp conversion.time2)
    match copySecondRowToFirst temp name with
    | .error e => .error e
    | .ok temp => .ok (dropCol temp "speed_temp")

/-- The "column exists" guard message shared by the add operations. -/
def columnExistsMsg (name : String) : String :=
  "Trajectory already has a column named " ++ name ++
    "! Use overwrite=True to overwrite exiting values or update the name arg."

/-- `add_distance(self, overwrite, name, units)` (the `units`/`crs_units`
resolution of `unit_utils.get_conversion` is received as the already-resolved
`conversion`). -/
def add_distance (ctx : GeoCtx) (T : Traj) (overwrite : Bool) (name : String)
    (conversion : Conversion) : Except PyErr Traj :=
  if (dfColumns T.rows).contains name ∧ overwrite = false then
    .error (.runtimeError (columnExistsMsg name))
  else
    match get_df_with_distance ctx T.is_latlon conversion T.rows name with
    | .error e => .error e
    | .ok rows => .ok { T with rows := rows, distance_col_name := some name }

/-- `add_speed(self, overwrite, name, units)`. -/
def add_speed (ctx : GeoCtx) (T : Traj) (overwrite : Bool) (name : String)
    (conversion : Conversion) : Except PyErr Traj :=
  if (dfColumns T.rows).contains name ∧ overwrite = false then
    .error (.runtimeError (columnExistsMsg name))
  else
    match get_df_with_speed ctx T.is_latlon conversion T.rows name with
    | .error e => .error e
    | .ok rows => .ok { T with rows := rows, speed_col_name := some name }

/-- `add_acceleration(self, overwrite, name, units)`. -/
def add_acceleration (ctx : GeoCtx) (T : Traj) (overwrite : Bool) (name : String)
    (conversion : Conversion) : Except PyErr Traj :=
  if (dfColumns T.rows).contains name ∧ overwrite = false then
    .error (.runtimeError (columnExistsMsg name))
  else
    match get_df_with_acceleration ctx T.is_latlon conversion T.rows name with
    | .error e => .error e
    | .ok rows => .ok { T with rows := rows, acceleration_col_name := some name }

/-- `add_timedelta(self, overwrite, name)`. -/
def add_timedelta (T : Traj) (overwrite : Bool) (name : String) : Except PyErr Traj :=
  if (dfColumns T.rows).contains name ∧ overwrite = false then
    .error (.runtimeError (columnExistsMsg name))
  else
    .ok { T with rows := get_df_with_timedelta T.rows name, timedelta_col_name := some name }

/-- `add_direction(self, overwrite, name)`: computes per-row headings on the
DataFrame itself, copies the second row value over the first, then drops the
transient `prev_pt` column. -/
def add_direction (ctx : GeoCtx) (T : Traj) (overwrite : Bool) (name : String) :
    Except PyErr Traj :=
  if (dfColumns T.rows).contains name ∧ overwrite = false then
    .error (.runtimeError (columnExistsMsg name))
  else
    let df := assignPrevPt T.rows
    match mapRows (compute_heading ctx T.is_latlon) df with
    | .error e => .error e
    | .ok vals =>
      let df := setColVals df name (vals.map CellVal.num)
      match copySecondRowToFirst df name with
      | .error e => .error e
      | .ok df => .ok { T with rows := dropCol df "prev_pt", direction_col_name := some name }

/-- `temp_df[col].shift()` read off a list of rows as a list of cells. -/
def shiftColVals (rows : List Row) (col : String) : List CellVal :=
  shiftVals (rows.map (fun r => (lookupAttr r col).getD CellVal.missing))

/-- `get_direction_column_name(self)`. -/
def get_direction_column_name (T : Traj) : String :=
  T.direction_col_name.getD "direction"

/-- `add_angular_difference(self, overwrite, name)`: requires the direction
column, computing it transiently (under the default name) when absent and
dropping it again afterwards. -/
def add_angular_difference (ctx : GeoCtx) (T : Traj) (overwrite : Bool) (name : String) :
    Except PyErr Traj :=
  if (dfColumns T.rows).contains name ∧ overwrite = false then
    .error (.runtimeError (columnExistsMsg name))
  else
    let direction_column_name := get_direction_column_name T
    let direction_exists := (dfColumns T.rows).contains direction_column_name
    match (if direction_exists then .ok T else add_direction ctx T false "direction" :
        Except PyErr Traj) with
    | .error e => .error e
    | .ok T1 =>
      let temp := setColVals T1.rows ("prev_" ++ direction_column_name)
        (shiftColVals T1.rows direction_column_name)
      match mapRows (compute_angular_difference ctx) temp with
      | .error e => .error e
      | .ok vals =>
        let df := setColVals T1.rows name vals
        let df := setAtTime df (startTime df) name (.num 0)
        let df := if direction_exists then df else dropCol df "direction"
        .ok { T1 with rows := df, angular_difference_col_name := some name }

/-- The comparison used to sort rows by their timestamp index
(`df.sort_index()`). -/
def rowLe (a b : Row) : Prop := a.t ≤ b.t

instance : DecidableRel rowLe := fun a b => inferInstanceAs (Decidable (a.t ≤ b.t))

instance : IsTotal Row rowLe := ⟨fun a b => le_total a.t b.t⟩

instance : IsTrans Row rowLe := ⟨fun _ _ _ h h2 => le_trans h h2⟩

/-- `df.sort_index()`. -/
def sortRows (rows : List Row) : List Row :=
  List.insertionSort rowLe rows

/-- `df[~df.index.duplicated(keep="first")]`: drop every row whose key was
already seen earlier in the list. -/
def dropDupBy (key : α → ℚ) : List α → List ℚ → List α
  | [], _ => []
  | x :: xs, seen =>
    if key x ∈ seen then dropDupBy key xs seen
    else x :: dropDupBy key xs (key x :: seen)

/-- The deduplication rule in the words of the spec: duplicate timestamps are
collapsed keeping the first occurrence. -/
def specDedup : List Row → List Row
  | [] => []
  | r :: rs => r :: specDedup (rs.filter (fun x => x.t ≠ r.t))
termination_by l => l.length
decreasing_by
  simp only [List.length_cons]
  exact Nat.lt_succ_of_le (List.length_filter_le _ _)

/-- `Trajectory.__init__(df, traj_id, parent=...)` for an already assembled
GeoDataFrame with a datetime index: requires at least two rows, sorts the
index, drops duplicate index entries keeping the first, and records the
resolved `is_latlon` flag.  (Building the point column from x/y inputs, time
zone normalization, and CRS resolution act before/aside this and are not
claim-relevant.) -/
def trajectory_init (rows : List Row) (traj_id : String) (is_latlon : Bool)
    (parent : Option String) : Except PyErr Traj :=
  if rows.length < 2 then
    .error (.valueError "The input DataFrame must have at least two rows.")
  else
    .ok { rows := dropDupBy (fun r => r.t) (sortRows rows) [],
          is_latlon := is_latlon, id := traj_id, parent := parent }

/-- `get_segment_between(self, t1, t2)`: label-slice `self.df[t1:t2]`
(inclusive of both endpoints on a sorted datetime index), wrap the slice as a
child Trajectory, and reject invalid segments. -/
def get_segment_between (T : Traj) (t1 t2 : ℚ) : Except PyErr Traj :=
  match trajectory_init (T.rows.filter (fun r => t1 ≤ r.t ∧ r.t ≤ t2))
      (T.id ++ "_" ++ toString t1) T.is_latlon (some T.id) with
  | .error e => .error e
  | .ok segment =>
    if traj_is_valid segment then .ok segment
    else .error (.runtimeError "Failed to extract valid trajectory segment")

/-- pandas `Index.get_indexer([t], method="ffill")` on a sorted index:
position of the largest label not exceeding `t`, or `-1`. -/
def ffillIndexer (times : List ℚ) (t : ℚ) : ℤ :=
  (times.foldl (fun (acc : ℤ × ℕ) x =>
    (if x ≤ t then (acc.2 : ℤ) else acc.1, acc.2 + 1)) (-1, 0)).1

/-- pandas `Index.get_indexer([t], method="bfill")` on a sorted index:
position of the smallest label not below `t`, or `-1`. -/
def bfillIndexer (times : List ℚ) (t : ℚ) : ℤ :=
  match times.findIdx? (fun x => t ≤ x) with
  | some i => (i : ℤ)
  | none => -1

/-- pandas `Index.get_indexer([t], method="nearest")` on a sorted unique
index: the closer of the two bracketing positions, the later one on a
distance tie, falling back to the sole existing side at the range ends. -/
def nearestIndexer (times : List ℚ) (t : ℚ) : ℤ :=
  let left := ffillIndexer times t
  let right := bfillIndexer times t
  if right = -1 then left
  else if left = -1 then right
  else
    let dl := |(times.getD left.toNat 0) - t|
    let dr := |(times.getD right.toNat 0) - t|
    if dl < dr then left else right

/-- Dispatch on the `method` string of `get_indexer`. -/
def getIndexer (times : List ℚ) (t : ℚ) (method : String) : ℤ :=
  if method = "nearest" then nearestIndexer times t
  else if method = "ffill" then ffillIndexer times t
  else if method = "bfill" then bfillIndexer times t
  else -1

/-- `df.iloc[idx]` with Python negative-index semantics. -/
def ilocRow (rows : List Row) (idx : ℤ) : Except PyErr Row :=
  let j : ℤ := if idx < 0 then (rows.length : ℤ) + idx else idx
  if h : 0 ≤ j ∧ j.toNat < rows.length then .ok (rows.get ⟨j.toNat, h.2⟩)
  else .error .indexError

/-- `get_row_at(self, t, method)`: exact `df.loc[t]` lookup first, falling
back to positional lookup through `get_indexer` on the sorted, deduplicated
index. -/
def get_row_at (T : Traj) (t : ℚ) (method : String) : Except PyErr Row :=
  match T.rows.find? (fun r => r.t = t) with
  | some r => .ok r
  | none =>
    let index := dropDupBy id (List.insertionSort (fun a b : ℚ => a ≤ b) (T.rows.map (fun r => r.t))) []
    ilocRow T.rows (getIndexer index t method)

/-- Extract a shapely `Point` from a geometry cell; a non-point where shapely
needs a point propagates as an error. -/
def expectPt (g : Geom) : Except PyErr Pt :=
  match g with
  | .pt p => .ok p
  | .invalid => .error .attributeError

/-- Linear interpolation `line.interpolate(frac * line.length)` along the
two-point segment from `p0` to `p1`; modelled from the spec: positions are
interpolated along the straight connecting segment proportionally to the
elapsed-time fraction. -/
def lineInterpolateFrac (p0 p1 : Pt) (frac : ℚ) : Pt :=
  { x := p0.x + frac * (p1.x - p0.x), y := p0.y + frac * (p1.y - p0.y) }

/-- `interpolate_position_at(self, t)`. -/
def interpolate_position_at (T : Traj) (t : ℚ) : Except PyErr Pt :=
  match get_row_at T t "ffill" with
  | .error e => .error e
  | .ok prev_row =>
    match get_row_at T t "bfill" with
    | .error e => .error e
    | .ok next_row =>
      let t_diff := next_row.t - prev_row.t
      let t_diff_at := t - prev_row.t
      match expectPt prev_row.geom with
      | .error e => .error e
      | .ok p0 =>
        match expectPt next_row.geom with
        | .error e => .error e
        | .ok p1 =>
          if t_diff = 0 ∨ p0 = p1 then .ok p0
          else .ok (lineInterpolateFrac p0 p1 (t_diff_at / t_diff))

/-- `get_position_at(self, t, method)`. -/
def get_position_at (T : Traj) (t : ℚ) (method : String) : Except PyErr Pt :=
  if t < startTime T.rows ∨ t > endTime T.rows then
    .error (.valueError "Timestamp outside the trajectory time range")
  else if method ∉ ["nearest", "interpolated", "ffill", "bfill"] then
    .error (.valueError ("Invalid method " ++ method ++
      ". Must be one of [nearest, interpolated, ffill, bfill]"))
  else if method = "interpolated" then
    interpolate_position_at T t
  else
    match get_row_at T t method with
    | .error e => .error e
    | .ok row => expectPt row.geom

/-- Strings produced by the WKT export are modelled as character lists, so
that the `coords[:-2]` two-character truncation of the source is exact. -/
abbrev PyStr := List Char

/-- `unit_utils.to_unixtime(t)`; modelled from the spec: the export stamps
each coordinate pair with unix seconds, and the embedded index already
denotes seconds since the epoch. -/
def to_unixtime (t : ℚ) : ℚ := t

/-- The coordinate accumulator loop of `to_linestringm_wkt`: for each row
append `"{x} {y} {t}, "`, failing on a non-point geometry where the source
would fail to read `pt.x`. -/
def wktCoords (showq : ℚ → PyStr) : List Row → Except PyErr PyStr
  | [] => .ok []
  | r :: rs =>
    match r.geom with
    | .invalid => .error .attributeError
    | .pt p =>
      match wktCoords showq rs with
      | .error e => .error e
      | .ok rest =>
        .ok ((showq p.x ++ [' '] ++ showq p.y ++ [' '] ++ showq (to_unixtime r.t)) ++
          [',', ' '] ++ rest)

/-- `to_linestringm_wkt(self)`: wrap the accumulated coordinates, with the
final two characters (the trailing `", "`) sliced off, in
`"LINESTRING M (...)"`.  The float-to-text rendering is the external Python
`str` and is passed in as `showq`. -/
def to_linestringm_wkt (showq : ℚ → PyStr) (T : Traj) : Except PyErr PyStr :=
  match wktCoords showq T.rows with
  | .error e => .error e
  | .ok coords =>
    .ok ("LINESTRING M (".toList ++ coords.take (coords.length - 2) ++ ")".toList)

/-- One coordinate triple in the words of the spec: `x`, `y` and the unix
timestamp separated by single spaces. -/
def wktTriple (showq : ℚ → PyStr) (r : Row) : PyStr :=
  match r.geom with
  | .pt p => showq p.x ++ [' '] ++ showq p.y ++ [' '] ++ showq (to_unixtime r.t)
  | .invalid => []

/-- Joining with a separator and no trailing separator, in the words of the
spec. -/
def wktJoin (sep : PyStr) : List PyStr → PyStr
  | [] => []
  | [a] => a
  | a :: b :: rest => a ++ sep ++ wktJoin sep (b :: rest)

/-- The constructor invariant on the index: timestamps strictly increasing
(hence sorted and unique). -/
def TimesSorted (rows : List Row) : Prop :=
  rows.Pairwise (fun a b => a.t < b.t)

instance : Decidable (TimesSorted rows) :=
  inferInstanceAs (Decidable (rows.Pairwise _))

/-- Does a geometry cell hold a valid point? -/
def isPointGeom : Geom → Bool
  | .pt _ => true
  | .invalid => false

/-- Every row geometry of the DataFrame is a valid point. -/
def AllPoints (rows : List Row) : Prop :=
  ∀ r ∈ rows, isPointGeom r.geom = true

instance : Decidable (AllPoints rows) :=
  inferInstanceAs (Decidable (∀ r ∈ rows, _))

theorem rowSet_t (r : Row) (name : String) (v : CellVal) : (rowSet r name v).t = r.t := by
  unfold rowSet; split <;> rfl

theorem rowSet_geom (r : Row) (name : String) (v : CellVal) :
    (rowSet r name v).geom = r.geom := by
  unfold rowSet; split <;> rfl



theorem find_map_overwrite (name : String) (v : CellVal) (l : List (String × CellVal)) :
    (l.map (fun p => if p.1 = name then (name, v) else p)).find? (fun p => p.1 = name) =
      if l.any (fun p => p.1 = name) then some (name, v) else none := by
  induction l with
  | nil => rfl
  | cons q qs ih =>
    rw [List.map_cons, List.find?_cons, List.any_cons]
    by_cases hq : q.1 = name
    · simp [hq]
    · rw [if_neg hq]
      have hd : (decide (q.1 = name)) = false := by simp [hq]
      rw [hd, ih, Bool.false_or]

theorem find_map_overwrite_ne (name m : String) (v : CellVal) (hm : m ≠ name)
    (l : List (String × CellVal)) :
    (l.map (fun p => if p.1 = name then (name, v) else p)).find? (fun p => p.1 = m) =
      l.find? (fun p => p.1 = m) := by
  induction l with
  | nil => rfl
  | cons q qs ih =>
    rw [List.map_cons, List.find?_cons, List.find?_cons]
    by_cases hq : q.1 = name
    · have h2 : (decide (q.1 = m)) = false := by
        simp only [decide_eq_false_iff_not]
        intro hc
        exact hm (hq.symm.trans hc).symm
      rw [if_pos hq, h2]
      have h1 : (decide ((name, v).1 = m)) = false := by
        simp only [decide_eq_false_iff_not]
        intro hc
        exact hm hc.symm
      rw [h1, ih]
    · rw [if_neg hq]
      cases hd : decide (q.1 = m) with
      | true => rfl
      | false => rw [ih]

theorem lookupAttr_rowSet_self (r : Row) (name : String) (v : CellVal) :
    lookupAttr (rowSet r name v) name = some v := by
  unfold rowSet lookupAttr
  by_cases h : r.attrs.any (fun p => p.1 = name)
  · simp only [if_pos h]
    rw [find_map_overwrite name v r.attrs, if_pos h]
    rfl
  · simp only [if_neg h]
    have hnone : r.attrs.find? (fun p => p.1 = name) = none := by
      rw [List.find?_eq_none]
      intro p hp hc
      exact h (List.any_eq_true.2 ⟨p, hp, hc⟩)
    rw [List.find?_append, hnone]
    simp

theorem lookupAttr_rowSet_ne (r : Row) {name m : String} (v : CellVal) (hm : m ≠ name) :
    lookupAttr (rowSet r name v) m = lookupAttr r m := by
  unfold rowSet lookupAttr
  by_cases h : r.attrs.any (fun p => p.1 = name)
  · simp only [if_pos h]
    rw [find_map_overwrite_ne name m v hm r.attrs]
  · simp only [if_neg h]
    rw [List.find?_append]
    cases hfind : r.attrs.find? (fun p => p.1 = m) with
    | some p => simp
    | none =>
      have hm2 : (decide ((name, v).1 = m)) = false := by
        simp only [decide_eq_false_iff_not]
        intro hc
        exact hm hc.symm
      simp [List.find?_cons, hm2]

theorem length_setColVals (rows : List Row) (name : String) (vals : List CellVal) :
    (setColVals rows name vals).length = min rows.length vals.length := by
  unfold setColVals
  exact List.length_zipWith _ _ _

theorem getElem_setColVals (rows : List Row) (name : String) (vals : List CellVal) (i : ℕ) :
    (setColVals rows name vals)[i]? =
      (rows[i]?).bind (fun r => (vals[i]?).map (fun v => rowSet r name v)) := by
  unfold setColVals
  rw [List.getElem?_zipWith']
  cases rows[i]? <;> cases vals[i]? <;> rfl

theorem getElem_dropCol (rows : List Row) (name : String) (i : ℕ) :
    (dropCol rows name)[i]? =
      (rows[i]?).map (fun r => { r with attrs := r.attrs.filter (fun p => p.1 ≠ name) }) := by
  unfold dropCol
  rw [List.getElem?_map]

theorem getElem_setAtTime (rows : List Row) (t0 : ℚ) (name : String) (v : CellVal) (i : ℕ) :
    (setAtTime rows t0 name v)[i]? =
      (rows[i]?).map (fun r => if r.t = t0 then rowSet r name v else r) := by
  unfold setAtTime
  rw [List.getElem?_map]

theorem times_setColVals (rows : List Row) (name : String) (vals : List CellVal)
    (h : rows.length ≤ vals.length) :
    (setColVals rows name vals).map (fun r => r.t) = rows.map (fun r => r.t) := by
  unfold setColVals
  induction rows generalizing vals with
  | nil => rfl
  | cons r rs ih =>
    cases vals with
    | nil => simp at h
    | cons v vs =>
      rw [List.zipWith_cons_cons, List.map_cons, List.map_cons, rowSet_t,
        ih vs (Nat.le_of_succ_le_succ h)]

theorem times_dropCol (rows : List Row) (name : String) :
    (dropCol rows name).map (fun r => r.t) = rows.map (fun r => r.t) := by
  unfold dropCol
  rw [List.map_map]
  rfl

theorem times_setAtTime (rows : List Row) (t0 : ℚ) (name : String) (v : CellVal) :
    (setAtTime rows t0 name v).map (fun r => r.t) = rows.map (fun r => r.t) := by
  unfold setAtTime
  rw [List.map_map]
  apply List.map_congr_left
  intro r _
  by_cases h : r.t = t0 <;> simp [h, rowSet_t]

theorem geoms_setColVals (rows : List Row) (name : String) (vals : List CellVal)
    (h : rows.length ≤ vals.length) :
    (setColVals rows name vals).map (fun r => r.geom) = rows.map (fun r => r.geom) := by
  unfold setColVals
  induction rows generalizing vals with
  | nil => rfl
  | cons r rs ih =>
    cases vals with
    | nil => simp at h
    | cons v vs =>
      rw [List.zipWith_cons_cons, List.map_cons, List.map_cons, rowSet_geom,
        ih vs (Nat.le_of_succ_le_succ h)]

theorem length_shiftVals (vals : List CellVal) : (shiftVals vals).length = vals.length := by
  unfold shiftVals
  cases vals with
  | nil => rfl
  | cons v vs => simp [List.length_dropLast]

theorem length_timedeltaVals (rows : List Row) : (timedeltaVals rows).length = rows.length := by
  unfold timedeltaVals
  cases rows with
  | nil => rfl
  | cons r rs => simp [List.length_zipWith]

theorem length_assignPrevPt (rows : List Row) : (assignPrevPt rows).length = rows.length := by
  unfold assignPrevPt
  rw [length_setColVals, length_shiftVals, List.length_map, min_self]

theorem times_assignPrevPt (rows : List Row) :
    (assignPrevPt rows).map (fun r => r.t) = rows.map (fun r => r.t) := by
  unfold assignPrevPt
  apply times_setColVals
  rw [length_shiftVals, List.length_map]

theorem times_get_df_with_timedelta (rows : List Row) (name : String) :
    (get_df_with_timedelta rows name).map (fun r => r.t) = rows.map (fun r => r.t) := by
  unfold get_df_with_timedelta
  apply times_setColVals
  rw [length_timedeltaVals]

theorem length_get_df_with_timedelta (rows : List Row) (name : String) :
    (get_df_with_timedelta rows name).length = rows.length := by
  unfold get_df_with_timedelta
  rw [length_setColVals, length_timedeltaVals, min_self]

theorem mapRows_ok_length {f : Row → Except PyErr α} {l : List Row} {vs : List α}
    (h : mapRows f l = .ok vs) : vs.length = l.length := by
  induction l generalizing vs with
  | nil => cases h; rfl
  | cons r rs ih =>
    unfold mapRows at h
    cases hf : f r with
    | error e => rw [hf] at h; cases h
    | ok v =>
      rw [hf] at h
      cases hm : mapRows f rs with
      | error e => rw [hm] at h; cases h
      | ok ws =>
        rw [hm] at h
        cases h
        simp [ih hm]

theorem mapRows_ok_getElem {f : Row → Except PyErr α} {l : List Row} {vs : List α}
    (h : mapRows f l = .ok vs) (i : ℕ) {r : Row} (hr : l[i]? = some r) :
    ∃ v, vs[i]? = some v ∧ f r = .ok v := by
  induction l generalizing vs i with
  | nil => simp at hr
  | cons a as ih =>
    unfold mapRows at h
    cases hf : f a with
    | error e => rw [hf] at h; cases h
    | ok v =>
      rw [hf] at h
      cases hm : mapRows f as with
      | error e => rw [hm] at h; cases h
      | ok ws =>
        rw [hm] at h
        cases h
        cases i with
        | zero =>
          rw [List.getElem?_cons_zero] at hr
          cases hr
          exact ⟨v, List.getElem?_cons_zero, hf⟩
        | succ j =>
          rw [List.getElem?_cons_succ] at hr
          obtain ⟨w, hw, hfw⟩ := ih hm j hr
          exact ⟨w, by rw [List.getElem?_cons_succ]; exact hw, hfw⟩

theorem mapRows_ok_of_forall {f : Row → Except PyErr α} {l : List Row}
    (h : ∀ r ∈ l, ∃ v, f r = .ok v) : ∃ vs, mapRows f l = .ok vs := by
  induction l with
  | nil => exact ⟨[], rfl⟩
  | cons r rs ih =>
    obtain ⟨v, hv⟩ := h r (List.mem_cons_self r rs)
    obtain ⟨vs, hvs⟩ := ih (fun x hx => h x (List.mem_cons_of_mem r hx))
    exact ⟨v :: vs, by unfold mapRows; rw [hv, hvs]⟩

theorem mapRows_error_mem {f : Row → Except PyErr α} {l : List Row} {e : PyErr}
    (h : mapRows f l = .error e) : ∃ r ∈ l, f r = .error e := by
  induction l with
  | nil => cases h
  | cons r rs ih =>
    unfold mapRows at h
    cases hf : f r with
    | error e2 =>
      rw [hf] at h
      cases h
      exact ⟨r, List.mem_cons_self r rs, hf⟩
    | ok v =>
      rw [hf] at h
      cases hm : mapRows f rs with
      | error e2 =>
        rw [hm] at h
        cases h
        obtain ⟨x, hx, hfx⟩ := ih hm
        exact ⟨x, List.mem_cons_of_mem r hx, hfx⟩
      | ok ws => rw [hm] at h; cases h

theorem mapRows_error_of_mem {f : Row → Except PyErr α} {l : List Row} {r : Row} {e : PyErr}
    (hr : r ∈ l) (hf : f r = .error e) : ∃ e2, mapRows f l = .error e2 := by
  induction l with
  | nil => simp at hr
  | cons a as ih =>
    unfold mapRows
    cases hfa : f a with
    | error e2 => exact ⟨e2, rfl⟩
    | ok v =>
      rcases List.mem_cons.1 hr with h1 | h1
      · subst h1; rw [hfa] at hf; cases hf
      · obtain ⟨e2, he2⟩ := ih h1
        rw [he2]
        exact ⟨e2, rfl⟩

theorem dropDupBy_sublist (key : α → ℚ) (l : List α) (seen : List ℚ) :
    List.Sublist (dropDupBy key l seen) l := by
  induction l generalizing seen with
  | nil => exact List.Sublist.refl []
  | cons x xs ih =>
    unfold dropDupBy
    by_cases h : key x ∈ seen
    · rw [if_pos h]
      exact (ih seen).cons x
    · rw [if_neg h]
      exact (ih (key x :: seen)).cons₂ x

theorem not_seen_of_mem_dropDupBy (key : α → ℚ) {l : List α} {seen : List ℚ} {x : α}
    (hx : x ∈ dropDupBy key l seen) : key x ∉ seen := by
  induction l generalizing seen with
  | nil => simp [dropDupBy] at hx
  | cons a as ih =>
    unfold dropDupBy at hx
    by_cases h : key a ∈ seen
    · rw [if_pos h] at hx
      exact ih hx
    · rw [if_neg h] at hx
      rcases List.mem_cons.1 hx with h1 | h1
      · subst h1; exact h
      · intro hc
        exact ih h1 (List.mem_cons_of_mem _ hc)

theorem pairwise_ne_dropDupBy (key : α → ℚ) (l : List α) (seen : List ℚ) :
    (dropDupBy key l seen).Pairwise (fun a b => key a ≠ key b) := by
  induction l generalizing seen with
  | nil => exact List.Pairwise.nil
  | cons x xs ih =>
    unfold dropDupBy
    by_cases h : key x ∈ seen
    · rw [if_pos h]
      exact ih seen
    · rw [if_neg h]
      refine List.Pairwise.cons ?_ (ih (key x :: seen))
      intro b hb hc
      exact not_seen_of_mem_dropDupBy key hb (hc ▸ List.mem_cons_self _ _)

theorem dropDupBy_eq_self (key : α → ℚ) {l : List α} {seen : List ℚ}
    (hnd : l.Pairwise (fun a b => key a ≠ key b)) (hs : ∀ x ∈ l, key x ∉ seen) :
    dropDupBy key l seen = l := by
  induction l generalizing seen with
  | nil => rfl
  | cons x xs ih =>
    unfold dropDupBy
    rw [if_neg (hs x (List.mem_cons_self x xs))]
    congr 1
    rcases List.pairwise_cons.1 hnd with ⟨hx, hxs⟩
    apply ih hxs
    intro y hy
    rw [List.mem_cons, not_or]
    exact ⟨fun hc => hx y hy hc.symm, hs y (List.mem_cons_of_mem x hy)⟩

theorem dropDupBy_eq_specDedup : ∀ (l : List Row) (seen : List ℚ),
    dropDupBy (fun r => r.t) l seen = specDedup (l.filter (fun x => x.t ∉ seen))
  | [], seen => by simp [dropDupBy, specDedup]
  | r :: rs, seen => by
    unfold dropDupBy
    by_cases h : r.t ∈ seen
    · rw [if_pos h, List.filter_cons_of_neg (by simpa using h)]
      exact dropDupBy_eq_specDedup rs seen
    · rw [if_neg h, List.filter_cons_of_pos (by simpa using h)]
      unfold specDedup
      congr 1
      rw [dropDupBy_eq_specDedup rs (r.t :: seen), List.filter_filter]
      congr 1
      apply List.filter_congr
      intro x _
      simp only [List.mem_cons, not_or, decide_not]
      cases hx1 : decide (x.t = r.t) <;> cases hx2 : decide (x.t ∈ seen) <;>
        simp_all
termination_by l _ => l.length
decreasing_by
  all_goals simp only [List.length_cons]
  · exact Nat.lt_succ_self _
  · exact Nat.lt_succ_self _

theorem foldl_min_eq {l : List Row} {a : ℚ} (h : ∀ x ∈ l, a ≤ x.t) :
    l.foldl (fun acc x => min acc x.t) a = a := by
  induction l generalizing a with
  | nil => rfl
  | cons x xs ih =>
    rw [List.foldl_cons, min_eq_left (h x (List.mem_cons_self x xs))]
    exact ih (fun y hy => h y (List.mem_cons_of_mem x hy))

theorem foldl_min_le_init (l : List Row) (a : ℚ) :
    l.foldl (fun acc x => min acc x.t) a ≤ a := by
  induction l generalizing a with
  | nil => exact le_refl a
  | cons x xs ih =>
    rw [List.foldl_cons]
    exact le_trans (ih (min a x.t)) (min_le_left a x.t)

theorem foldl_min_le_mem {l : List Row} {x : Row} (hx : x ∈ l) (a : ℚ) :
    l.foldl (fun acc x => min acc x.t) a ≤ x.t := by
  induction l generalizing a with
  | nil => simp at hx
  | cons y ys ih =>
    rw [List.foldl_cons]
    rcases List.mem_cons.1 hx with h1 | h1
    · subst h1
      exact le_trans (foldl_min_le_init ys (min a x.t)) (min_le_right a x.t)
    · exact ih h1 (min a y.t)

theorem le_foldl_max_init (l : List Row) (a : ℚ) :
    a ≤ l.foldl (fun acc x => max acc x.t) a := by
  induction l generalizing a with
  | nil => exact le_refl a
  | cons x xs ih =>
    rw [List.foldl_cons]
    exact le_trans (le_max_left a x.t) (ih (max a x.t))

theorem foldl_max_ge_mem {l : List Row} {x : Row} (hx : x ∈ l) (a : ℚ) :
    x.t ≤ l.foldl (fun acc x => max acc x.t) a := by
  induction l generalizing a with
  | nil => simp at hx
  | cons y ys ih =>
    rw [List.foldl_cons]
    rcases List.mem_cons.1 hx with h1 | h1
    · subst h1
      exact le_trans (le_max_right a x.t) (le_foldl_max_init ys (max a x.t))
    · exact ih h1 (max a y.t)

theorem startTime_le_mem {rows : List Row} {r : Row} (hr : r ∈ rows) :
    startTime rows ≤ r.t := by
  cases rows with
  | nil => simp at hr
  | cons h tl =>
    unfold startTime
    rcases List.mem_cons.1 hr with h1 | h1
    · subst h1; exact foldl_min_le_init tl r.t
    · exact foldl_min_le_mem h1 h.t

theorem le_endTime_mem {rows : List Row} {r : Row} (hr : r ∈ rows) :
    r.t ≤ endTime rows := by
  cases rows with
  | nil => simp at hr
  | cons h tl =>
    unfold endTime
    rcases List.mem_cons.1 hr with h1 | h1
    · subst h1; exact le_foldl_max_init tl r.t
    · exact foldl_max_ge_mem h1 h.t

theorem startTime_eq_head {r : Row} {rs : List Row} (h : TimesSorted (r :: rs)) :
    startTime (r :: rs) = r.t := by
  unfold startTime
  exact foldl_min_eq (fun x hx => le_of_lt ((List.pairwise_cons.1 h).1 x hx))

theorem startTime_lt_endTime {rows : List Row} (h : TimesSorted rows)
    (h2 : 2 ≤ rows.length) : startTime rows < endTime rows := by
  cases rows with
  | nil => simp at h2
  | cons r rs =>
    cases rs with
    | nil => simp at h2
    | cons r2 rs2 =>
      rw [startTime_eq_head h]
      have hlt : r.t < r2.t := (List.pairwise_cons.1 h).1 r2 (List.mem_cons_self _ _)
      exact lt_of_lt_of_le hlt (le_endTime_mem (List.mem_cons_of_mem r (List.mem_cons_self _ _)))

theorem tail_t_ne_head {r : Row} {rs : List Row} (h : TimesSorted (r :: rs)) {x : Row}
    (hx : x ∈ rs) : x.t ≠ r.t :=
  ne_of_gt ((List.pairwise_cons.1 h).1 x hx)

theorem find_self_of_sorted {rows : List Row} (h : TimesSorted rows) {r : Row}
    (hr : r ∈ rows) : rows.find? (fun x => x.t = r.t) = some r := by
  induction rows with
  | nil => simp at hr
  | cons a as ih =>
    rcases List.mem_cons.1 hr with h1 | h1
    · subst h1
      exact List.find?_cons_of_pos as (by simp)
    · have hne : a.t ≠ r.t := ne_of_lt ((List.pairwise_cons.1 h).1 r h1)
      rw [List.find?_cons_of_neg as (by simpa using hne)]
      exact ih (List.pairwise_cons.1 h).2 h1

theorem length_dropCol (rows : List Row) (name : String) :
    (dropCol rows name).length = rows.length := List.length_map _ _

theorem length_setAtTime (rows : List Row) (t0 : ℚ) (name : String) (v : CellVal) :
    (setAtTime rows t0 name v).length = rows.length := List.length_map _ _

theorem length_eq_of_times_eq {rows1 rows2 : List Row}
    (h : rows1.map (fun r => r.t) = rows2.map (fun r => r.t)) :
    rows1.length = rows2.length := by
  have := congrArg List.length h
  simpa using this

theorem times_copySecondRowToFirst {rows rows2 : List Row} {name : String}
    (h : copySecondRowToFirst rows name = .ok rows2) :
    rows2.map (fun r => r.t) = rows.map (fun r => r.t) := by
  unfold copySecondRowToFirst at h
  cases h1 : rows[1]? with
  | none => rw [h1] at h; cases h
  | some r1 =>
    rw [h1] at h
    dsimp only [] at h
    cases h2 : lookupAttr r1 name with
    | none => rw [h2] at h; cases h
    | some v =>
      rw [h2] at h
      cases h
      exact times_setAtTime rows _ name v

theorem times_get_df_with_distance {ctx : GeoCtx} {ll : Bool} {conv : Conversion}
    {rows rows2 : List Row} {name : String}
    (h : get_df_with_distance ctx ll conv rows name = .ok rows2) :
    rows2.map (fun r => r.t) = rows.map (fun r => r.t) := by
  unfold get_df_with_distance at h
  dsimp only [] at h
  cases hm : mapRows (compute_distance ctx ll conv) (assignPrevPt rows) with
  | error e => rw [hm] at h; cases h
  | ok vals =>
    rw [hm] at h
    dsimp only [] at h
    cases h
    rw [times_dropCol, times_setAtTime, times_setColVals, times_assignPrevPt]
    rw [List.length_map, mapRows_ok_length hm, length_assignPrevPt]

theorem times_get_df_with_speed {ctx : GeoCtx} {ll : Bool} {conv : Conversion}
    {rows rows2 : List Row} {name : String}
    (h : get_df_with_speed ctx ll conv rows name = .ok rows2) :
    rows2.map (fun r => r.t) = rows.map (fun r => r.t) := by
  unfold get_df_with_speed at h
  dsimp only [] at h
  cases hm : mapRows (compute_speed ctx ll conv)
      (assignPrevPt (get_df_with_timedelta rows "delta_t")) with
  | error e => rw [hm] at h; cases h
  | ok vals =>
    rw [hm] at h
    dsimp only [] at h
    cases hc : copySecondRowToFirst
        (setColVals (assignPrevPt (get_df_with_timedelta rows "delta_t")) name vals) name with
    | error e => rw [hc] at h; cases h
    | ok temp2 =>
      rw [hc] at h
      cases h
      rw [times_dropCol, times_dropCol, times_copySecondRowToFirst hc, times_setColVals,
        times_assignPrevPt, times_get_df_with_timedelta]
      rw [mapRows_ok_length hm, length_assignPrevPt]

theorem length_get_df_with_speed {ctx : GeoCtx} {ll : Bool} {conv : Conversion}
    {rows rows2 : List Row} {name : String}
    (h : get_df_with_speed ctx ll conv rows name = .ok rows2) :
    rows2.length = rows.length :=
  length_eq_of_times_eq (times_get_df_with_speed h)

theorem times_get_df_with_acceleration {ctx : GeoCtx} {ll : Bool} {conv : Conversion}
    {rows rows2 : List Row} {name : String}
    (h : get_df_with_acceleration ctx ll conv rows name = .ok rows2) :
    rows2.map (fun r => r.t) = rows.map (fun r => r.t) := by
  unfold get_df_with_acceleration at h
  dsimp only [] at h
  cases hs : get_df_with_speed ctx ll conv rows "speed_temp" with
  | error e => rw [hs] at h; cases h
  | ok temp =>
    rw [hs] at h
    dsimp only [] at h
    cases hc : copySecondRowToFirst (setColVals temp name (accelVals temp conv.time2)) name with
    | error e => rw [hc] at h; cases h
    | ok temp2 =>
      rw [hc] at h
      cases h
      rw [times_dropCol, times_copySecondRowToFirst hc, times_setColVals,
        times_get_df_with_speed hs]
      unfold accelVals
      cases temp with
      | nil => simp
      | cons a tl => simp [List.length_zipWith]

theorem times_add_distance {ctx : GeoCtx} {T T2 : Traj} {ow : Bool} {name : String}
    {conv : Conversion} (h : add_distance ctx T ow name conv = .ok T2) :
    T2.rows.map (fun r => r.t) = T.rows.map (fun r => r.t) := by
  unfold add_distance at h
  split at h
  · cases h
  · cases hg : get_df_with_distance ctx T.is_latlon conv T.rows name with
    | error e => rw [hg] at h; cases h
    | ok rows2 =>
      rw [hg] at h
      cases h
      exact times_get_df_with_distance hg

theorem times_add_speed {ctx : GeoCtx} {T T2 : Traj} {ow : Bool} {name : String}
    {conv : Conversion} (h : add_speed ctx T ow name conv = .ok T2) :
    T2.rows.map (fun r => r.t) = T.rows.map (fun r => r.t) := by
  unfold add_speed at h
  split at h
  · cases h
  · cases hg : get_df_with_speed ctx T.is_latlon conv T.rows name with
    | error e => rw [hg] at h; cases h
    | ok rows2 =>
      rw [hg] at h
      cases h
      exact times_get_df_with_speed hg

theorem times_add_acceleration {ctx : GeoCtx} {T T2 : Traj} {ow : Bool} {name : String}
    {conv : Conversion} (h : add_acceleration ctx T ow name conv = .ok T2) :
    T2.rows.map (fun r => r.t) = T.rows.map (fun r => r.t) := by
  unfold add_acceleration at h
  split at h
  · cases h
  · cases hg : get_df_with_acceleration ctx T.is_latlon conv T.rows name with
    | error e => rw [hg] at h; cases h
    | ok rows2 =>
      rw [hg] at h
      cases h
      exact times_get_df_with_acceleration hg

theorem times_add_timedelta {T T2 : Traj} {ow : Bool} {name : String}
    (h : add_timedelta T ow name = .ok T2) :
    T2.rows.map (fun r => r.t) = T.rows.map (fun r => r.t) := by
  unfold add_timedelta at h
  split at h
  · cases h
  · cases h
    exact times_get_df_with_timedelta T.rows name

theorem times_add_direction {ctx : GeoCtx} {T T2 : Traj} {ow : Bool} {name : String}
    (h : add_direction ctx T ow name = .ok T2) :
    T2.rows.map (fun r => r.t) = T.rows.map (fun r => r.t) := by
  unfold add_direction at h
  split at h
  · cases h
  · dsimp only [] at h
    cases hm : mapRows (compute_heading ctx T.is_latlon) (assignPrevPt T.rows) with
    | error e => rw [hm] at h; cases h
    | ok vals =>
      rw [hm] at h
      dsimp only [] at h
      cases hc : copySecondRowToFirst
          (setColVals (assignPrevPt T.rows) name (vals.map CellVal.num)) name with
      | error e => rw [hc] at h; cases h
      | ok df2 =>
        rw [hc] at h
        cases h
        rw [times_dropCol, times_copySecondRowToFirst hc, times_setColVals,
          times_assignPrevPt]
        rw [List.length_map, mapRows_ok_length hm, length_assignPrevPt]

theorem times_add_angular_difference {ctx : GeoCtx} {T T2 : Traj} {ow : Bool} {name : String}
    (h : add_angular_difference ctx T ow name = .ok T2) :
    T2.rows.map (fun r => r.t) = T.rows.map (fun r => r.t) := by
  unfold add_angular_difference at h
  split at h
  · cases h
  · dsimp only [] at h
    cases hT1 : (if (dfColumns T.rows).contains (get_direction_column_name T) then .ok T
        else add_direction ctx T false "direction" : Except PyErr Traj) with
    | error e => rw [hT1] at h; cases h
    | ok T1 =>
      rw [hT1] at h
      dsimp only [] at h
      have hT1t : T1.rows.map (fun r => r.t) = T.rows.map (fun r => r.t) := by
        split at hT1
        · cases hT1; rfl
        · exact times_add_direction hT1
      cases hm : mapRows (compute_angular_difference ctx)
          (setColVals T1.rows ("prev_" ++ get_direction_column_name T)
            (shiftColVals T1.rows (get_direction_column_name T))) with
      | error e => rw [hm] at h; cases h
      | ok vals =>
        rw [hm] at h
        dsimp only [] at h
        cases h
        have hlen : T1.rows.length ≤ vals.length := by
          rw [mapRows_ok_length hm, length_setColVals]
          unfold shiftColVals
          rw [length_shiftVals, List.length_map, min_self]
        split
        · rw [times_setAtTime, times_setColVals _ _ _ hlen, hT1t]
        · rw [times_dropCol, times_setAtTime, times_setColVals _ _ _ hlen, hT1t]

/-- C5: The constructor sorts rows by timestamp ascending and collapses
duplicate timestamps keeping the first occurrence in the sorted order, so the
resulting sample series has strictly increasing, unique timestamps; and each
add operation leaves the timestamp sequence (hence ordering and uniqueness)
unchanged on success. -/
theorem construction_invariant (rows : List Row) (tid : String) (ll : Bool)
    (par : Option String) (T : Traj) (h : trajectory_init rows tid ll par = .ok T) :
    TimesSorted T.rows ∧
    T.rows = specDedup (sortRows rows) ∧
    (∀ ctx T3 T4 ow name conv, add_distance ctx T3 ow name conv = .ok T4 →
      T4.rows.map (fun r => r.t) = T3.rows.map (fun r => r.t)) ∧
    (∀ ctx T3 T4 ow name conv, add_speed ctx T3 ow name conv = .ok T4 →
      T4.rows.map (fun r => r.t) = T3.rows.map (fun r => r.t)) ∧
    (∀ ctx T3 T4 ow name conv, add_acceleration ctx T3 ow name conv = .ok T4 →
      T4.rows.map (fun r => r.t) = T3.rows.map (fun r => r.t)) ∧
    (∀ T3 T4 ow name, add_timedelta T3 ow name = .ok T4 →
      T4.rows.map (fun r => r.t) = T3.rows.map (fun r => r.t)) ∧
    (∀ ctx T3 T4 ow name, add_direction ctx T3 ow name = .ok T4 →
      T4.rows.map (fun r => r.t) = T3.rows.map (fun r => r.t)) ∧
    (∀ ctx T3 T4 ow name, add_angular_difference ctx T3 ow name = .ok T4 →
      T4.rows.map (fun r => r.t) = T3.rows.map (fun r => r.t)) := by
  have hrows : T.rows = dropDupBy (fun r => r.t) (sortRows rows) [] := by
    unfold trajectory_init at h
    split at h
    · cases h
    · cases h; rfl
  constructor
  · rw [hrows]
    have hs : (sortRows rows).Pairwise rowLe := List.sorted_insertionSort rowLe rows
    have hp1 : (dropDupBy (fun r => r.t) (sortRows rows) []).Pairwise rowLe :=
      List.Pairwise.sublist (dropDupBy_sublist _ _ _) hs
    have hp2 := pairwise_ne_dropDupBy (fun r => r.t) (sortRows rows) []
    exact List.Pairwise.imp₂ (fun a b h1 h2 => lt_of_le_of_ne h1 h2) hp1 hp2
  refine ⟨?_, fun ctx T3 T4 ow name conv => times_add_distance,
    fun ctx T3 T4 ow name conv => times_add_speed,
    fun ctx T3 T4 ow name conv => times_add_acceleration,
    fun T3 T4 ow name => times_add_timedelta,
    fun ctx T3 T4 ow name => times_add_direction,
    fun ctx T3 T4 ow name => times_add_angular_difference⟩
  rw [hrows, dropDupBy_eq_specDedup]
  congr 1
  apply List.filter_eq_self.mpr
  intro a _
  simp

/-- Concrete unsorted constructor input with a duplicate timestamp, for the C5
witness. -/
def c5Input : List Row :=
  [⟨60, .pt ⟨6,0⟩, []⟩, ⟨0, .pt ⟨0,0⟩, []⟩, ⟨0, .pt ⟨9,9⟩, []⟩]

/-- The trajectory the constructor builds from `c5Input`. -/
def c5Result : Traj :=
  { rows := [⟨0, .pt ⟨0,0⟩, []⟩, ⟨60, .pt ⟨6,0⟩, []⟩], is_latlon := false, id := "X" }

/-- Witness for C5 at a concrete unsorted input with a duplicate timestamp. -/
theorem construction_invariant_witness :
    TimesSorted c5Result.rows ∧
    c5Result.rows = specDedup (sortRows c5Input) ∧
    (∀ ctx T3 T4 ow name conv, add_distance ctx T3 ow name conv = .ok T4 →
      T4.rows.map (fun r => r.t) = T3.rows.map (fun r => r.t)) ∧
    (∀ ctx T3 T4 ow name conv, add_speed ctx T3 ow name conv = .ok T4 →
      T4.rows.map (fun r => r.t) = T3.rows.map (fun r => r.t)) ∧
    (∀ ctx T3 T4 ow name conv, add_acceleration ctx T3 ow name conv = .ok T4 →
      T4.rows.map (fun r => r.t) = T3.rows.map (fun r => r.t)) ∧
    (∀ T3 T4 ow name, add_timedelta T3 ow name = .ok T4 →
      T4.rows.map (fun r => r.t) = T3.rows.map (fun r => r.t)) ∧
    (∀ ctx T3 T4 ow name, add_direction ctx T3 ow name = .ok T4 →
      T4.rows.map (fun r => r.t) = T3.rows.map (fun r => r.t)) ∧
    (∀ ctx T3 T4 ow name, add_angular_difference ctx T3 ow name = .ok T4 →
      T4.rows.map (fun r => r.t) = T3.rows.map (fun r => r.t)) :=
  construction_invariant c5Input "X" false none c5Result (by rfl)

theorem getElem_shiftVals_zero {vals : List CellVal} (h : vals ≠ []) :
    (shiftVals vals)[0]? = some .missing := by
  unfold shiftVals
  cases vals with
  | nil => exact absurd rfl h
  | cons v vs =>
    dsimp only []
    rw [List.getElem?_cons_zero]

theorem getElem_shiftVals_succ {vals : List CellVal} {i : ℕ} (h : i + 1 < vals.length) :
    (shiftVals vals)[i + 1]? = vals[i]? := by
  unfold shiftVals
  cases vals with
  | nil => simp at h
  | cons v vs =>
    dsimp only []
    rw [List.getElem?_cons_succ, List.getElem?_dropLast,
      if_pos (by simp only [List.length_cons] at h ⊢; omega)]

theorem getElem_setColVals_some {rows : List Row} {name : String} {vals : List CellVal}
    {i : ℕ} {r : Row} {v : CellVal} (hr : rows[i]? = some r) (hv : vals[i]? = some v) :
    (setColVals rows name vals)[i]? = some (rowSet r name v) := by
  rw [getElem_setColVals, hr, hv]
  rfl

theorem getElem_assignPrevPt_zero {rows : List Row} {r : Row} (h : rows[0]? = some r) :
    (assignPrevPt rows)[0]? = some (rowSet r "prev_pt" .missing) := by
  unfold assignPrevPt
  apply getElem_setColVals_some h
  rw [getElem_shiftVals_zero]
  intro hc
  rw [List.map_eq_nil_iff] at hc
  subst hc
  cases h

theorem getElem_assignPrevPt_succ {rows : List Row} {i : ℕ} {a b : Row}
    (ha : rows[i]? = some a) (hb : rows[i + 1]? = some b) :
    (assignPrevPt rows)[i + 1]? = some (rowSet b "prev_pt" (.geom a.geom)) := by
  unfold assignPrevPt
  apply getElem_setColVals_some hb
  have hlen : i + 1 < rows.length := (List.getElem?_eq_some.1 hb).1
  rw [getElem_shiftVals_succ (by rw [List.length_map]; exact hlen), List.getElem?_map, ha]
  rfl

theorem getElem_timedeltaVals_zero {rows : List Row} (h : rows ≠ []) :
    (timedeltaVals rows)[0]? = some .missing := by
  unfold timedeltaVals
  cases rows with
  | nil => exact absurd rfl h
  | cons r tl =>
    dsimp only []
    rw [List.getElem?_cons_zero]

theorem getElem_timedeltaVals_succ {rows : List Row} {i : ℕ} {a b : Row}
    (ha : rows[i]? = some a) (hb : rows[i + 1]? = some b) :
    (timedeltaVals rows)[i + 1]? = some (.tdelta (b.t - a.t)) := by
  unfold timedeltaVals
  cases rows with
  | nil => cases ha
  | cons r tl =>
    have htl : tl[i]? = some b := by rw [List.getElem?_cons_succ] at hb; exact hb
    dsimp only []
    rw [List.getElem?_cons_succ, List.getElem?_zipWith', ha, htl]
    rfl

theorem getElem_gdwt_zero {rows : List Row} {name : String} {r : Row}
    (h : rows[0]? = some r) :
    (get_df_with_timedelta rows name)[0]? = some (rowSet r name .missing) := by
  unfold get_df_with_timedelta
  apply getElem_setColVals_some h
  apply getElem_timedeltaVals_zero
  intro hc
  subst hc
  cases h

theorem getElem_gdwt_succ {rows : List Row} {name : String} {i : ℕ} {a b : Row}
    (ha : rows[i]? = some a) (hb : rows[i + 1]? = some b) :
    (get_df_with_timedelta rows name)[i + 1]? = some (rowSet b name (.tdelta (b.t - a.t))) := by
  unfold get_df_with_timedelta
  exact getElem_setColVals_some hb (getElem_timedeltaVals_succ ha hb)

theorem lookupAttr_dropCol_ne {t0 : ℚ} {g : Geom} {attrs : List (String × CellVal)}
    {col name : String} (h : name ≠ col) :
    lookupAttr ⟨t0, g, attrs.filter (fun p => p.1 ≠ col)⟩ name =
      lookupAttr ⟨t0, g, attrs⟩ name := by
  unfold lookupAttr
  congr 1
  induction attrs with
  | nil => rfl
  | cons q qs ih =>
    by_cases hq : q.1 = col
    · rw [List.filter_cons_of_neg (by simp [hq])]
      rw [List.find?_cons_of_neg _
        (by simp only [hq, decide_eq_true_eq]; exact fun hc => h hc.symm)]
      exact ih
    · rw [List.filter_cons_of_pos (by simp [hq])]
      rw [List.find?_cons, List.find?_cons]
      cases hd : decide (q.1 = name) with
      | true => rfl
      | false => exact ih

theorem getElem_dropCol_some {rows : List Row} {name : String} {i : ℕ} {r : Row}
    (h : rows[i]? = some r) :
    (dropCol rows name)[i]? = some { r with attrs := r.attrs.filter (fun p => p.1 ≠ name) } := by
  rw [getElem_dropCol, h]
  rfl

theorem timesSorted_iff_map {rows : List Row} :
    TimesSorted rows ↔ (rows.map (fun r => r.t)).Pairwise (fun a b => a < b) := by
  unfold TimesSorted
  exact (List.pairwise_map).symm

/-- The minimum of a list of rationals as pandas `Index.min()` computes it. -/
def qListMin (l : List ℚ) : ℚ :=
  match l with
  | [] => 0
  | a :: as => as.foldl min a

/-- The maximum of a list of rationals as pandas `Index.max()` computes it. -/
def qListMax (l : List ℚ) : ℚ :=
  match l with
  | [] => 0
  | a :: as => as.foldl max a

theorem startTime_eq_qListMin (rows : List Row) :
    startTime rows = qListMin (rows.map (fun r => r.t)) := by
  unfold startTime qListMin
  cases rows with
  | nil => rfl
  | cons r rs =>
    dsimp only [List.map_cons]
    rw [List.foldl_map]

theorem endTime_eq_qListMax (rows : List Row) :
    endTime rows = qListMax (rows.map (fun r => r.t)) := by
  unfold endTime qListMax
  cases rows with
  | nil => rfl
  | cons r rs =>
    dsimp only [List.map_cons]
    rw [List.foldl_map]

theorem startTime_eq_of_times_eq {rows1 rows2 : List Row}
    (h : rows1.map (fun r => r.t) = rows2.map (fun r => r.t)) :
    startTime rows1 = startTime rows2 := by
  rw [startTime_eq_qListMin, startTime_eq_qListMin, h]

theorem timesSorted_of_times_eq {rows1 rows2 : List Row}
    (h : rows1.map (fun r => r.t) = rows2.map (fun r => r.t))
    (hs : TimesSorted rows2) : TimesSorted rows1 := by
  rw [timesSorted_iff_map, h, ← timesSorted_iff_map]
  exact hs

theorem setAtTime_start_zero {rows : List Row} {name : String} {v : CellVal} {r : Row}
    (hs : TimesSorted rows) (h : rows[0]? = some r) :
    (setAtTime rows (startTime rows) name v)[0]? = some (rowSet r name v) := by
  rw [getElem_setAtTime, h]
  cases rows with
  | nil => cases h
  | cons a tl =>
    rw [List.getElem?_cons_zero] at h
    cases h
    rw [startTime_eq_head hs]
    simp

theorem setAtTime_start_succ {rows : List Row} {name : String} {v : CellVal} {i : ℕ}
    {r : Row} (hs : TimesSorted rows) (h : rows[i + 1]? = some r) :
    (setAtTime rows (startTime rows) name v)[i + 1]? = some r := by
  rw [getElem_setAtTime, h]
  cases rows with
  | nil => cases h
  | cons a tl =>
    rw [startTime_eq_head hs]
    have hr : r ∈ tl := by
      rw [List.getElem?_cons_succ] at h
      exact List.getElem?_mem h
    rw [Option.map]
    rw [if_neg (tail_t_ne_head hs hr)]

theorem compute_distance_prev_nonpoint {ctx : GeoCtx} {ll : Bool} {conv : Conversion}
    {r : Row} (h : ∀ p, lookupAttr r "prev_pt" ≠ some (CellVal.geom (Geom.pt p))) :
    compute_distance ctx ll conv r = .ok 0 := by
  unfold compute_distance
  cases hv : lookupAttr r "prev_pt" with
  | none => rfl
  | some v =>
    cases v with
    | geom g =>
      cases g with
      | pt p => exact absurd hv (h p)
      | invalid => rfl
    | num q => rfl
    | tdelta d => rfl
    | missing => rfl

theorem compute_speed_prev_nonpoint {ctx : GeoCtx} {ll : Bool} {conv : Conversion}
    {r : Row} (h : ∀ p, lookupAttr r "prev_pt" ≠ some (CellVal.geom (Geom.pt p))) :
    compute_speed ctx ll conv r = .ok (.num 0) := by
  unfold compute_speed
  cases hv : lookupAttr r "prev_pt" with
  | none => rfl
  | some v =>
    cases v with
    | geom g =>
      cases g with
      | pt p => exact absurd hv (h p)
      | invalid => rfl
    | num q => rfl
    | tdelta d => rfl
    | missing => rfl

theorem compute_heading_prev_nonpoint {ctx : GeoCtx} {ll : Bool}
    {r : Row} (h : ∀ p, lookupAttr r "prev_pt" ≠ some (CellVal.geom (Geom.pt p))) :
    compute_heading ctx ll r = .ok 0 := by
  unfold compute_heading
  cases hv : lookupAttr r "prev_pt" with
  | none => rfl
  | some v =>
    cases v with
    | geom g =>
      cases g with
      | pt p => exact absurd hv (h p)
      | invalid => rfl
    | num q => rfl
    | tdelta d => rfl
    | missing => rfl

theorem compute_distance_valid {ctx : GeoCtx} {ll : Bool} {conv : Conversion}
    {r : Row} {p0 p1 : Pt} (hprev : lookupAttr r "prev_pt" = some (CellVal.geom (Geom.pt p0)))
    (hg : r.geom = Geom.pt p1) :
    compute_distance ctx ll conv r =
      .ok (if p0 = p1 then 0 else
        (if ll then ctx.measure_distance_geodesic p0 p1
         else ctx.measure_distance_euclidean p0 p1) * conv.crs / conv.distance) := by
  unfold compute_distance
  rw [hprev, hg]
  by_cases hpe : p0 = p1
  · simp [hpe]
  · cases ll <;> simp [hpe]

theorem compute_speed_valid {ctx : GeoCtx} {ll : Bool} {conv : Conversion}
    {r : Row} {p0 p1 : Pt} {d : ℚ}
    (hprev : lookupAttr r "prev_pt" = some (CellVal.geom (Geom.pt p0)))
    (hg : r.geom = Geom.pt p1) (hdt : lookupAttr r "delta_t" = some (CellVal.tdelta d))
    (hd : d ≠ 0) :
    compute_speed ctx ll conv r =
      .ok (.num (if p0 = p1 then 0 else
        (if ll then ctx.measure_distance_geodesic p0 p1
         else ctx.measure_distance_euclidean p0 p1) * conv.crs / conv.distance
          / d * conv.time)) := by
  unfold compute_speed
  rw [hprev, hg]
  by_cases hpe : p0 = p1
  · simp [hpe]
  · rw [hdt]
    cases ll <;> simp [hpe, hd]

theorem compute_heading_valid {ctx : GeoCtx} {ll : Bool}
    {r : Row} {p0 p1 : Pt} (hprev : lookupAttr r "prev_pt" = some (CellVal.geom (Geom.pt p0)))
    (hg : r.geom = Geom.pt p1) :
    compute_heading ctx ll r =
      .ok (if p0 = p1 then 0 else
        if ll then ctx.calculate_initial_compass_bearing p0 p1 else ctx.azimuth p0 p1) := by
  unfold compute_heading
  rw [hprev, hg]
  by_cases hpe : p0 = p1
  · simp [hpe]
  · cases ll <;> simp [hpe]

theorem isPointGeom_exists {g : Geom} (h : isPointGeom g = true) : ∃ p, g = Geom.pt p := by
  cases g with
  | pt p => exact ⟨p, rfl⟩
  | invalid => cases h

theorem lookupAttr_filterCol_ne {r : Row} {col name : String} (h : name ≠ col) :
    lookupAttr { r with attrs := r.attrs.filter (fun p => p.1 ≠ col) } name =
      lookupAttr r name :=
  lookupAttr_dropCol_ne h

theorem pairwise_consecutive {rows : List Row} (hs : TimesSorted rows) {i : ℕ} {a b : Row}
    (ha : rows[i]? = some a) (hb : rows[i + 1]? = some b) : a.t < b.t := by
  unfold TimesSorted at hs
  rw [List.pairwise_iff_getElem] at hs
  obtain ⟨hia, hga⟩ := List.getElem?_eq_some.1 ha
  obtain ⟨hib, hgb⟩ := List.getElem?_eq_some.1 hb
  have := hs i (i + 1) hia hib (Nat.lt_succ_self i)
  rw [hga, hgb] at this
  exact this

theorem length_pos_of_getElem {l : List Row} {i : ℕ} {r : Row} (h : l[i]? = some r) :
    i < l.length := (List.getElem?_eq_some.1 h).1

/-- Success and first-two-row values of the distance pipeline under the
constructor invariant. -/
theorem get_df_with_distance_master (ctx : GeoCtx) (ll : Bool) (conv : Conversion)
    (rows : List Row) (name : String)
    (hs : TimesSorted rows) (hlen : 2 ≤ rows.length) (hap : AllPoints rows)
    (hn1 : name ≠ "prev_pt") :
    ∃ rows2, get_df_with_distance ctx ll conv rows name = .ok rows2 ∧
      ∃ r0, rows2[0]? = some r0 ∧ lookupAttr r0 name = some (.num 0) := by
  have h0 : rows[0]? = some (rows.get ⟨0, by omega⟩) := List.getElem?_eq_getElem (by omega)
  set a0 := rows.get ⟨0, by omega⟩ with ha0
  have hok : ∀ r2 ∈ assignPrevPt rows, ∃ q, compute_distance ctx ll conv r2 = .ok q := by
    intro r2 hr2
    obtain ⟨i, hi⟩ := List.mem_iff_getElem?.1 hr2
    cases i with
    | zero =>
      rw [getElem_assignPrevPt_zero h0] at hi
      cases hi
      exact ⟨0, compute_distance_prev_nonpoint (by
        rw [lookupAttr_rowSet_self]
        intro p hc
        cases hc)⟩
    | succ j =>
      have hjlen : j + 1 < rows.length := by
        have := length_pos_of_getElem hi
        rw [length_assignPrevPt] at this
        exact this
      have hja : rows[j]? = some (rows.get ⟨j, by omega⟩) := List.getElem?_eq_getElem (by omega)
      have hjb : rows[j + 1]? = some (rows.get ⟨j + 1, hjlen⟩) :=
        List.getElem?_eq_getElem hjlen
      rw [getElem_assignPrevPt_succ hja hjb] at hi
      cases hi
      obtain ⟨p0, hp0⟩ := isPointGeom_exists (hap _ (List.getElem?_mem hja))
      obtain ⟨p1, hp1⟩ := isPointGeom_exists (hap _ (List.getElem?_mem hjb))
      exact ⟨_, @compute_distance_valid ctx ll conv _ p0 p1
        (by rw [lookupAttr_rowSet_self, hp0]) (by rw [rowSet_geom, hp1])⟩
  obtain ⟨vals, hm⟩ := mapRows_ok_of_forall hok
  have hvlen : vals.length = rows.length := by
    rw [mapRows_ok_length hm, length_assignPrevPt]
  have htemp2 : (setColVals (assignPrevPt rows) name (vals.map CellVal.num)).map
      (fun r => r.t) = rows.map (fun r => r.t) := by
    rw [times_setColVals, times_assignPrevPt]
    rw [List.length_map, hvlen, length_assignPrevPt]
  have hs2 : TimesSorted (setColVals (assignPrevPt rows) name (vals.map CellVal.num)) :=
    timesSorted_of_times_eq htemp2 hs
  have hv0 : ∃ q0, vals[0]? = some q0 := by
    have : 0 < vals.length := by omega
    exact ⟨vals.get ⟨0, this⟩, List.getElem?_eq_getElem this⟩
  obtain ⟨q0, hq0⟩ := hv0
  have ht20 : (setColVals (assignPrevPt rows) name (vals.map CellVal.num))[0]? =
      some (rowSet (rowSet a0 "prev_pt" .missing) name (.num q0)) := by
    apply getElem_setColVals_some (getElem_assignPrevPt_zero h0)
    rw [List.getElem?_map, hq0]
    rfl
  refine ⟨_, by unfold get_df_with_distance; dsimp only []; rw [hm], ?_⟩
  refine ⟨_, getElem_dropCol_some (setAtTime_start_zero hs2 ht20), ?_⟩
  rw [lookupAttr_filterCol_ne hn1, lookupAttr_rowSet_self]

theorem getElem_gdwt_exists {rows : List Row} {n : String} {j : ℕ} {a : Row}
    (ha : rows[j]? = some a) :
    ∃ x, (get_df_with_timedelta rows n)[j]? = some x ∧ x.geom = a.geom := by
  cases j with
  | zero => exact ⟨_, getElem_gdwt_zero ha, rowSet_geom _ _ _⟩
  | succ k =>
    have hk : k < rows.length := by
      have := length_pos_of_getElem ha
      omega
    exact ⟨_, getElem_gdwt_succ (List.getElem?_eq_getElem hk) ha, rowSet_geom _ _ _⟩

/-- Success and first-two-row values of the speed pipeline under the
constructor invariant: both of the first two rows carry the same computed
float, because the first row is overwritten with the second row value. -/
theorem get_df_with_speed_master (ctx : GeoCtx) (ll : Bool) (conv : Conversion)
    (rows : List Row) (name : String)
    (hs : TimesSorted rows) (hlen : 2 ≤ rows.length) (hap : AllPoints rows)
    (hn1 : name ≠ "prev_pt") (hn2 : name ≠ "delta_t") :
    ∃ rows2, get_df_with_speed ctx ll conv rows name = .ok rows2 ∧
      ∃ r0 r1 q, rows2[0]? = some r0 ∧ rows2[1]? = some r1 ∧
        lookupAttr r0 name = some (.num q) ∧ lookupAttr r1 name = some (.num q) := by
  have hdp : ("delta_t" : String) ≠ "prev_pt" := by decide
  have h0 : rows[0]? = some (rows.get ⟨0, by omega⟩) := List.getElem?_eq_getElem (by omega)
  have h1 : rows[1]? = some (rows.get ⟨1, by omega⟩) := List.getElem?_eq_getElem (by omega)
  have hg0 : (get_df_with_timedelta rows "delta_t")[0]? =
      some (rowSet (rows.get ⟨0, by omega⟩) "delta_t" .missing) := getElem_gdwt_zero h0
  have hok : ∀ r2 ∈ assignPrevPt (get_df_with_timedelta rows "delta_t"),
      ∃ v, compute_speed ctx ll conv r2 = .ok v := by
    intro r2 hr2
    obtain ⟨i, hi⟩ := List.mem_iff_getElem?.1 hr2
    cases i with
    | zero =>
      rw [getElem_assignPrevPt_zero hg0] at hi
      cases hi
      exact ⟨_, compute_speed_prev_nonpoint (by
        rw [lookupAttr_rowSet_self]
        intro p hc
        cases hc)⟩
    | succ j =>
      have hjlen : j + 1 < rows.length := by
        have := length_pos_of_getElem hi
        rw [length_assignPrevPt, length_get_df_with_timedelta] at this
        exact this
      have hja : rows[j]? = some (rows.get ⟨j, by omega⟩) := List.getElem?_eq_getElem (by omega)
      have hjb : rows[j + 1]? = some (rows.get ⟨j + 1, hjlen⟩) :=
        List.getElem?_eq_getElem hjlen
      obtain ⟨x, hx, hxg⟩ := @getElem_gdwt_exists _ "delta_t" _ _ hja
      have hy := @getElem_gdwt_succ _ "delta_t" _ _ _ hja hjb
      rw [getElem_assignPrevPt_succ hx hy] at hi
      cases hi
      obtain ⟨p0, hp0⟩ := isPointGeom_exists (hap _ (List.getElem?_mem hja))
      obtain ⟨p1, hp1⟩ := isPointGeom_exists (hap _ (List.getElem?_mem hjb))
      have hd : (rows.get ⟨j + 1, hjlen⟩).t - (rows.get ⟨j, by omega⟩).t ≠ 0 :=
        sub_ne_zero.2 (ne_of_gt (pairwise_consecutive hs hja hjb))
      exact ⟨_, @compute_speed_valid ctx ll conv _ p0 p1 _
        (by rw [lookupAttr_rowSet_self, hxg, hp0])
        (by rw [rowSet_geom, rowSet_geom, hp1])
        (by rw [lookupAttr_rowSet_ne _ _ hdp, lookupAttr_rowSet_self])
        hd⟩
  obtain ⟨vals, hm⟩ := mapRows_ok_of_forall hok
  have hvlen : vals.length = rows.length := by
    rw [mapRows_ok_length hm, length_assignPrevPt, length_get_df_with_timedelta]
  -- the second computed row and its value
  have hy1 := @getElem_gdwt_succ _ "delta_t" 0 _ _ h0 h1
  obtain ⟨x0, hx0, hx0g⟩ := @getElem_gdwt_exists _ "delta_t" _ _ h0
  have htemp1 := @getElem_assignPrevPt_succ _ 0 _ _ hx0 hy1
  obtain ⟨v1, hv1, hfv1⟩ := mapRows_ok_getElem hm 1 htemp1
  obtain ⟨p0, hp0⟩ := isPointGeom_exists (hap _ (List.getElem?_mem h0))
  obtain ⟨p1, hp1⟩ := isPointGeom_exists (hap _ (List.getElem?_mem h1))
  have hd : (rows.get ⟨1, by omega⟩).t - (rows.get ⟨0, by omega⟩).t ≠ 0 :=
    sub_ne_zero.2 (ne_of_gt (pairwise_consecutive hs h0 h1))
  rw [@compute_speed_valid ctx ll conv _ p0 p1 _
    (by rw [lookupAttr_rowSet_self, hx0g, hp0])
    (by rw [rowSet_geom, rowSet_geom, hp1])
    (by rw [lookupAttr_rowSet_ne _ _ hdp, lookupAttr_rowSet_self])
    hd] at hfv1
  obtain ⟨q1, hq1⟩ : ∃ q, v1 = .num q := ⟨_, (Except.ok.inj hfv1).symm⟩
  -- the assembled temp DataFrame with the named column
  have htimes2 : (setColVals (assignPrevPt (get_df_with_timedelta rows "delta_t")) name
      vals).map (fun r => r.t) = rows.map (fun r => r.t) := by
    rw [times_setColVals, times_assignPrevPt, times_get_df_with_timedelta]
    rw [hvlen, length_assignPrevPt, length_get_df_with_timedelta]
  have hs2 : TimesSorted (setColVals (assignPrevPt (get_df_with_timedelta rows "delta_t"))
      name vals) := timesSorted_of_times_eq htimes2 hs
  obtain ⟨v0, hv0⟩ : ∃ v0, vals[0]? = some v0 :=
    ⟨vals.get ⟨0, by omega⟩, List.getElem?_eq_getElem (by omega)⟩
  have ht20 := @getElem_setColVals_some _ name _ _ _ _ (getElem_assignPrevPt_zero hg0) hv0
  have ht21 := @getElem_setColVals_some _ name _ _ _ _ htemp1 hv1
  have hcopy : copySecondRowToFirst
      (setColVals (assignPrevPt (get_df_with_timedelta rows "delta_t")) name vals) name =
      .ok (setAtTime (setColVals (assignPrevPt (get_df_with_timedelta rows "delta_t"))
        name vals)
        (startTime (setColVals (assignPrevPt (get_df_with_timedelta rows "delta_t"))
          name vals)) name v1) := by
    unfold copySecondRowToFirst
    rw [ht21]
    dsimp only []
    rw [lookupAttr_rowSet_self]
  refine ⟨dropCol (dropCol (setAtTime
      (setColVals (assignPrevPt (get_df_with_timedelta rows "delta_t")) name vals)
      (startTime (setColVals (assignPrevPt (get_df_with_timedelta rows "delta_t")) name vals))
      name v1) "prev_pt") "delta_t", ?_, ?_⟩
  · unfold get_df_with_speed
    dsimp only []
    rw [hm]
    dsimp only []
    rw [hcopy]
  · refine ⟨_, _, q1,
      getElem_dropCol_some (getElem_dropCol_some (setAtTime_start_zero hs2 ht20)),
      getElem_dropCol_some (getElem_dropCol_some (setAtTime_start_succ hs2 ht21)), ?_, ?_⟩
    · rw [lookupAttr_filterCol_ne hn2, lookupAttr_filterCol_ne hn1,
        lookupAttr_rowSet_self, hq1]
    · rw [lookupAttr_filterCol_ne hn2, lookupAttr_filterCol_ne hn1,
        lookupAttr_rowSet_self, hq1]

theorem length_accelVals (temp : List Row) (t2 : ℚ) :
    (accelVals temp t2).length = temp.length := by
  unfold accelVals
  cases temp with
  | nil => rfl
  | cons a tl => simp [List.length_zipWith]

theorem getElem_accelVals_zero {temp : List Row} {t2 : ℚ} (h : temp ≠ []) :
    (accelVals temp t2)[0]? = some .missing := by
  unfold accelVals
  cases temp with
  | nil => exact absurd rfl h
  | cons a tl =>
    dsimp only []
    rw [List.getElem?_cons_zero]

theorem getElem_accelVals_succ {temp : List Row} {t2 : ℚ} {i : ℕ} {a b : Row}
    (ha : temp[i]? = some a) (hb : temp[i + 1]? = some b) :
    (accelVals temp t2)[i + 1]? =
      some (match lookupAttr a "speed_temp", lookupAttr b "speed_temp" with
        | some (CellVal.num v0), some (CellVal.num v1) =>
          CellVal.num ((v1 - v0) / (b.t - a.t) * t2)
        | _, _ => CellVal.missing) := by
  unfold accelVals
  cases temp with
  | nil => cases ha
  | cons r tl =>
    have htl : tl[i]? = some b := by rw [List.getElem?_cons_succ] at hb; exact hb
    dsimp only []
    rw [List.getElem?_cons_succ, List.getElem?_zipWith', ha, htl]
    rfl

/-- Success and first-two-row values of the acceleration pipeline under the
constructor invariant: the first row is overwritten with the second row
value. -/
theorem get_df_with_acceleration_master (ctx : GeoCtx) (ll : Bool) (conv : Conversion)
    (rows : List Row) (name : String)
    (hs : TimesSorted rows) (hlen : 2 ≤ rows.length) (hap : AllPoints rows)
    (hn1 : name ≠ "speed_temp") :
    ∃ rows2, get_df_with_acceleration ctx ll conv rows name = .ok rows2 ∧
      ∃ r0 r1 v, rows2[0]? = some r0 ∧ rows2[1]? = some r1 ∧
        lookupAttr r0 name = some v ∧ lookupAttr r1 name = some v := by
  obtain ⟨temp, hsp, t0row, t1row, q, ht0, ht1, hl0, hl1⟩ :=
    get_df_with_speed_master ctx ll conv rows "speed_temp" hs hlen hap
      (by decide) (by decide)
  have htlen : temp.length = rows.length := length_get_df_with_speed hsp
  have htimes : temp.map (fun r => r.t) = rows.map (fun r => r.t) :=
    times_get_df_with_speed hsp
  have hstemp : TimesSorted temp := timesSorted_of_times_eq htimes hs
  have hav1 : (accelVals temp conv.time2)[1]? =
      some (.num ((q - q) / (t1row.t - t0row.t) * conv.time2)) := by
    rw [getElem_accelVals_succ ht0 ht1, hl0, hl1]
  have hav0 : (accelVals temp conv.time2)[0]? = some .missing :=
    getElem_accelVals_zero (by
      intro hc
      rw [hc] at htlen
      simp at htlen
      omega)
  have ht20 := @getElem_setColVals_some _ name _ _ _ _ ht0 hav0
  have ht21 := @getElem_setColVals_some _ name _ _ _ _ ht1 hav1
  have htimes2 : (setColVals temp name (accelVals temp conv.time2)).map (fun r => r.t) =
      rows.map (fun r => r.t) := by
    rw [times_setColVals, htimes]
    rw [length_accelVals]
  have hs2 : TimesSorted (setColVals temp name (accelVals temp conv.time2)) :=
    timesSorted_of_times_eq htimes2 hs
  have hcopy : copySecondRowToFirst (setColVals temp name (accelVals temp conv.time2)) name =
      .ok (setAtTime (setColVals temp name (accelVals temp conv.time2))
        (startTime (setColVals temp name (accelVals temp conv.time2))) name
        (.num ((q - q) / (t1row.t - t0row.t) * conv.time2))) := by
    unfold copySecondRowToFirst
    rw [ht21]
    dsimp only []
    rw [lookupAttr_rowSet_self]
  refine ⟨dropCol (setAtTime (setColVals temp name (accelVals temp conv.time2))
      (startTime (setColVals temp name (accelVals temp conv.time2))) name
      (.num ((q - q) / (t1row.t - t0row.t) * conv.time2))) "speed_temp", ?_, ?_⟩
  · unfold get_df_with_acceleration
    dsimp only []
    rw [hsp]
    dsimp only []
    rw [hcopy]
  · refine ⟨_, _, CellVal.num ((q - q) / (t1row.t - t0row.t) * conv.time2),
      getElem_dropCol_some (setAtTime_start_zero hs2 ht20),
      getElem_dropCol_some (setAtTime_start_succ hs2 ht21), ?_, ?_⟩
    · rw [lookupAttr_filterCol_ne hn1, lookupAttr_rowSet_self]
    · rw [lookupAttr_filterCol_ne hn1, lookupAttr_rowSet_self]

/-- Success and first-two-row values of `add_direction` under the constructor
invariant: the first row is overwritten with the second row value. -/
theorem add_direction_master (ctx : GeoCtx) (T : Traj) (name : String)
    (hs : TimesSorted T.rows) (hlen : 2 ≤ T.rows.length) (hap : AllPoints T.rows)
    (hn1 : name ≠ "prev_pt") (hguard : (dfColumns T.rows).contains name = false) :
    ∃ T2, add_direction ctx T false name = .ok T2 ∧
      ∃ r0 r1 q, T2.rows[0]? = some r0 ∧ T2.rows[1]? = some r1 ∧
        lookupAttr r0 name = some (.num q) ∧ lookupAttr r1 name = some (.num q) := by
  have h0 : T.rows[0]? = some (T.rows.get ⟨0, by omega⟩) := List.getElem?_eq_getElem (by omega)
  have h1 : T.rows[1]? = some (T.rows.get ⟨1, by omega⟩) := List.getElem?_eq_getElem (by omega)
  have hok : ∀ r2 ∈ assignPrevPt T.rows, ∃ q, compute_heading ctx T.is_latlon r2 = .ok q := by
    intro r2 hr2
    obtain ⟨i, hi⟩ := List.mem_iff_getElem?.1 hr2
    cases i with
    | zero =>
      rw [getElem_assignPrevPt_zero h0] at hi
      cases hi
      exact ⟨0, compute_heading_prev_nonpoint (by
        rw [lookupAttr_rowSet_self]
        intro p hc
        cases hc)⟩
    | succ j =>
      have hjlen : j + 1 < T.rows.length := by
        have := length_pos_of_getElem hi
        rw [length_assignPrevPt] at this
        exact this
      have hja : T.rows[j]? = some (T.rows.get ⟨j, by omega⟩) :=
        List.getElem?_eq_getElem (by omega)
      have hjb : T.rows[j + 1]? = some (T.rows.get ⟨j + 1, hjlen⟩) :=
        List.getElem?_eq_getElem hjlen
      rw [getElem_assignPrevPt_succ hja hjb] at hi
      cases hi
      obtain ⟨p0, hp0⟩ := isPointGeom_exists (hap _ (List.getElem?_mem hja))
      obtain ⟨p1, hp1⟩ := isPointGeom_exists (hap _ (List.getElem?_mem hjb))
      exact ⟨_, @compute_heading_valid ctx T.is_latlon _ p0 p1
        (by rw [lookupAttr_rowSet_self, hp0]) (by rw [rowSet_geom, hp1])⟩
  obtain ⟨vals, hm⟩ := mapRows_ok_of_forall hok
  have hvlen : vals.length = T.rows.length := by
    rw [mapRows_ok_length hm, length_assignPrevPt]
  have htemp1 := @getElem_assignPrevPt_succ _ 0 _ _ h0 h1
  obtain ⟨v1, hv1, hfv1⟩ := mapRows_ok_getElem hm 1 htemp1
  have hmv1 : (vals.map CellVal.num)[1]? = some (.num v1) := by
    rw [List.getElem?_map, hv1]
    rfl
  obtain ⟨v0, hv0⟩ : ∃ v0, (vals.map CellVal.num)[0]? = some v0 := by
    refine ⟨_, List.getElem?_eq_getElem ?_⟩
    rw [List.length_map]
    omega
  have ht20 := @getElem_setColVals_some _ name _ _ _ _ (getElem_assignPrevPt_zero h0) hv0
  have ht21 := @getElem_setColVals_some _ name _ _ _ _ htemp1 hmv1
  have htimes2 : (setColVals (assignPrevPt T.rows) name (vals.map CellVal.num)).map
      (fun r => r.t) = T.rows.map (fun r => r.t) := by
    rw [times_setColVals, times_assignPrevPt]
    rw [List.length_map, hvlen, length_assignPrevPt]
  have hs2 : TimesSorted (setColVals (assignPrevPt T.rows) name (vals.map CellVal.num)) :=
    timesSorted_of_times_eq htimes2 hs
  have hcopy : copySecondRowToFirst
      (setColVals (assignPrevPt T.rows) name (vals.map CellVal.num)) name =
      .ok (setAtTime (setColVals (assignPrevPt T.rows) name (vals.map CellVal.num))
        (startTime (setColVals (assignPrevPt T.rows) name (vals.map CellVal.num)))
        name (.num v1)) := by
    unfold copySecondRowToFirst
    rw [ht21]
    dsimp only []
    rw [lookupAttr_rowSet_self]
  refine ⟨{ T with
      rows := dropCol (setAtTime (setColVals (assignPrevPt T.rows) name (vals.map CellVal.num))
        (startTime (setColVals (assignPrevPt T.rows) name (vals.map CellVal.num)))
        name (.num v1)) "prev_pt",
      direction_col_name := some name }, ?_, ?_⟩
  · unfold add_direction
    rw [if_neg (by
      intro hc
      rw [hguard] at hc
      exact Bool.false_ne_true hc.1)]
    dsimp only []
    rw [hm]
    dsimp only []
    rw [hcopy]
  · refine ⟨_, _, v1,
      getElem_dropCol_some (setAtTime_start_zero hs2 ht20),
      getElem_dropCol_some (setAtTime_start_succ hs2 ht21), ?_, ?_⟩
    · rw [lookupAttr_filterCol_ne hn1, lookupAttr_rowSet_self]
    · rw [lookupAttr_filterCol_ne hn1, lookupAttr_rowSet_self]

/-- C1: First-row policy.  For every trajectory with at least 2 samples (with
the constructor invariant and valid positions, under the default column
names): after `add_distance` the first row carries exactly 0; after
`add_timedelta` the first row carries an empty (missing) duration; after
`add_speed`, `add_acceleration` and `add_direction` the first row carries the
same value as the second row (copied, not zero). -/
theorem first_row_policy (ctx : GeoCtx) (T : Traj) (conv : Conversion)
    (hs : TimesSorted T.rows) (hlen : 2 ≤ T.rows.length) (hap : AllPoints T.rows)
    (hd : (dfColumns T.rows).contains "distance" = false)
    (ht : (dfColumns T.rows).contains "timedelta" = false)
    (hsp : (dfColumns T.rows).contains "speed" = false)
    (hac : (dfColumns T.rows).contains "acceleration" = false)
    (hdir : (dfColumns T.rows).contains "direction" = false) :
    (∃ T2 r0, add_distance ctx T false "distance" conv = .ok T2 ∧
      T2.rows[0]? = some r0 ∧ lookupAttr r0 "distance" = some (.num 0)) ∧
    (∃ T2 r0, add_timedelta T false "timedelta" = .ok T2 ∧
      T2.rows[0]? = some r0 ∧ lookupAttr r0 "timedelta" = some .missing) ∧
    (∃ T2 r0 r1 q, add_speed ctx T false "speed" conv = .ok T2 ∧
      T2.rows[0]? = some r0 ∧ T2.rows[1]? = some r1 ∧
      lookupAttr r0 "speed" = some (.num q) ∧ lookupAttr r1 "speed" = some (.num q)) ∧
    (∃ T2 r0 r1 v, add_acceleration ctx T false "acceleration" conv = .ok T2 ∧
      T2.rows[0]? = some r0 ∧ T2.rows[1]? = some r1 ∧
      lookupAttr r0 "acceleration" = some v ∧ lookupAttr r1 "acceleration" = some v) ∧
    (∃ T2 r0 r1 q, add_direction ctx T false "direction" = .ok T2 ∧
      T2.rows[0]? = some r0 ∧ T2.rows[1]? = some r1 ∧
      lookupAttr r0 "direction" = some (.num q) ∧ lookupAttr r1 "direction" = some (.num q)) := by
  refine ⟨?_, ?_, ?_, ?_, ?_⟩
  · obtain ⟨rows2, hok, r0, hr0, hl0⟩ :=
      get_df_with_distance_master ctx T.is_latlon conv T.rows "distance" hs hlen hap (by decide)
    refine ⟨{ T with rows := rows2, distance_col_name := some "distance" }, r0, ?_, hr0, hl0⟩
    unfold add_distance
    rw [if_neg (by
      intro hc
      rw [hd] at hc
      exact Bool.false_ne_true hc.1)]
    rw [hok]
  · have h0 : T.rows[0]? = some (T.rows.get ⟨0, by omega⟩) :=
      List.getElem?_eq_getElem (by omega)
    refine ⟨{ T with
        rows := get_df_with_timedelta T.rows "timedelta",
        timedelta_col_name := some "timedelta" }, _, ?_,
      @getElem_gdwt_zero T.rows "timedelta" _ h0, lookupAttr_rowSet_self _ _ _⟩
    unfold add_timedelta
    rw [if_neg (by
      intro hc
      rw [ht] at hc
      exact Bool.false_ne_true hc.1)]
  · obtain ⟨rows2, hok, r0, r1, q, hr0, hr1, hl0, hl1⟩ :=
      get_df_with_speed_master ctx T.is_latlon conv T.rows "speed" hs hlen hap
        (by decide) (by decide)
    refine ⟨{ T with rows := rows2, speed_col_name := some "speed" }, r0, r1, q, ?_,
      hr0, hr1, hl0, hl1⟩
    unfold add_speed
    rw [if_neg (by
      intro hc
      rw [hsp] at hc
      exact Bool.false_ne_true hc.1)]
    rw [hok]
  · obtain ⟨rows2, hok, r0, r1, v, hr0, hr1, hl0, hl1⟩ :=
      get_df_with_acceleration_master ctx T.is_latlon conv T.rows "acceleration" hs hlen hap
        (by decide)
    refine ⟨{ T with rows := rows2, acceleration_col_name := some "acceleration" }, r0, r1, v,
      ?_, hr0, hr1, hl0, hl1⟩
    unfold add_acceleration
    rw [if_neg (by
      intro hc
      rw [hac] at hc
      exact Bool.false_ne_true hc.1)]
    rw [hok]
  · obtain ⟨T2, hok, r0, r1, q, hr0, hr1, hl0, hl1⟩ :=
      add_direction_master ctx T "direction" hs hlen hap (by decide) hdir
    exact ⟨T2, r0, r1, q, hok, hr0, hr1, hl0, hl1⟩

/-- A concrete geodesy context for witnesses: any external implementation
works for the guarded properties under test. -/
def geoCtx0 : GeoCtx :=
  { measure_distance_geodesic := fun p q => p.x - q.x + p.y - q.y,
    measure_distance_euclidean := fun p q => p.x - q.x + p.y - q.y,
    calculate_initial_compass_bearing := fun _ _ => 7,
    azimuth := fun _ _ => 9,
    angular_difference := fun a b => a - b }

/-- The identity unit conversion (`UNITS()` with no declared units). -/
def conv1 : Conversion := ⟨1, 1, 1, 1⟩

/-- A concrete three-sample planar trajectory for witnesses. -/
def trajW : Traj :=
  { rows := [⟨0, .pt ⟨0,0⟩, []⟩, ⟨360, .pt ⟨6,0⟩, []⟩, ⟨600, .pt ⟨6,6⟩, []⟩],
    is_latlon := false, id := "W" }

/-- Witness for C1 at the concrete trajectory `trajW`. -/
theorem first_row_policy_witness :
    (∃ T2 r0, add_distance geoCtx0 trajW false "distance" conv1 = .ok T2 ∧
      T2.rows[0]? = some r0 ∧ lookupAttr r0 "distance" = some (.num 0)) ∧
    (∃ T2 r0, add_timedelta trajW false "timedelta" = .ok T2 ∧
      T2.rows[0]? = some r0 ∧ lookupAttr r0 "timedelta" = some .missing) ∧
    (∃ T2 r0 r1 q, add_speed geoCtx0 trajW false "speed" conv1 = .ok T2 ∧
      T2.rows[0]? = some r0 ∧ T2.rows[1]? = some r1 ∧
      lookupAttr r0 "speed" = some (.num q) ∧ lookupAttr r1 "speed" = some (.num q)) ∧
    (∃ T2 r0 r1 v, add_acceleration geoCtx0 trajW false "acceleration" conv1 = .ok T2 ∧
      T2.rows[0]? = some r0 ∧ T2.rows[1]? = some r1 ∧
      lookupAttr r0 "acceleration" = some v ∧ lookupAttr r1 "acceleration" = some v) ∧
    (∃ T2 r0 r1 q, add_direction geoCtx0 trajW false "direction" = .ok T2 ∧
      T2.rows[0]? = some r0 ∧ T2.rows[1]? = some r1 ∧
      lookupAttr r0 "direction" = some (.num q) ∧ lookupAttr r1 "direction" = some (.num q)) :=
  first_row_policy geoCtx0 trajW conv1 (by decide) (by decide) (by decide)
    (by decide) (by decide) (by decide) (by decide) (by decide)

theorem compute_speed_step_zero_dt {ctx : GeoCtx} {ll : Bool} {conv : Conversion}
    {b : Row} {g : Geom} {p0 p1 : Pt} (hg : g = .pt p0) (hb : b.geom = .pt p1)
    (hne : p0 ≠ p1) :
    compute_speed ctx ll conv
      (rowSet (rowSet b "delta_t" (.tdelta 0)) "prev_pt" (.geom g)) =
      .error .zeroDivision := by
  have hdp : ("delta_t" : String) ≠ "prev_pt" := by decide
  unfold compute_speed
  rw [lookupAttr_rowSet_self, hg, rowSet_geom, rowSet_geom, hb,
    lookupAttr_rowSet_ne _ _ hdp, lookupAttr_rowSet_self]
  simp [hne]

theorem compute_speed_step_error {ctx : GeoCtx} {ll : Bool} {conv : Conversion}
    {b : Row} {g : Geom} {d : ℚ} {p0 p1 : Pt} (hg : g = .pt p0) (hb : b.geom = .pt p1)
    {e : PyErr}
    (h : compute_speed ctx ll conv
      (rowSet (rowSet b "delta_t" (.tdelta d)) "prev_pt" (.geom g)) = .error e) :
    e = .zeroDivision := by
  have hdp : ("delta_t" : String) ≠ "prev_pt" := by decide
  unfold compute_speed at h
  rw [lookupAttr_rowSet_self, hg, rowSet_geom, rowSet_geom, hb,
    lookupAttr_rowSet_ne _ _ hdp, lookupAttr_rowSet_self] at h
  dsimp only [] at h
  by_cases hpe : p0 = p1
  · rw [if_pos hpe] at h
    cases h
  · rw [if_neg hpe] at h
    by_cases hd : d = 0
    · rw [if_pos hd] at h
      cases h
      rfl
    · rw [if_neg hd] at h
      cases h

/-- C2: For every pair of consecutive samples at distinct valid positions
with zero elapsed time between them, `add_speed` raises the
division-by-zero error — it does not return a DataFrame (so no silent 0,
NaN, or infinity). -/
theorem speed_zero_duration_raises (ctx : GeoCtx) (T : Traj) (conv : Conversion)
    (hap : AllPoints T.rows)
    (hguard : (dfColumns T.rows).contains "speed" = false)
    (i : ℕ) (a b : Row) (p q : Pt)
    (ha : T.rows[i]? = some a) (hb : T.rows[i + 1]? = some b)
    (hga : a.geom = .pt p) (hgb : b.geom = .pt q) (hne : p ≠ q) (hteq : b.t = a.t) :
    add_speed ctx T false "speed" conv = .error .zeroDivision := by
  obtain ⟨x, hx, hxg⟩ := @getElem_gdwt_exists _ "delta_t" _ _ ha
  have hy := @getElem_gdwt_succ _ "delta_t" _ _ _ ha hb
  have htempi := getElem_assignPrevPt_succ hx hy
  have hdz : b.t - a.t = 0 := by rw [hteq]; ring
  rw [hdz] at htempi
  have hstep : compute_speed ctx T.is_latlon conv
      (rowSet (rowSet b "delta_t" (.tdelta 0)) "prev_pt" (.geom x.geom)) =
      .error .zeroDivision :=
    compute_speed_step_zero_dt (hxg.trans hga) hgb hne
  obtain ⟨e2, he2⟩ := mapRows_error_of_mem (List.getElem?_mem htempi) hstep
  have he2z : e2 = PyErr.zeroDivision := by
    obtain ⟨r2, hr2, hfr2⟩ := mapRows_error_mem he2
    obtain ⟨j, hj⟩ := List.mem_iff_getElem?.1 hr2
    cases j with
    | zero =>
      have h0 : T.rows[0]? = some (T.rows.get ⟨0, by
        have := length_pos_of_getElem ha
        omega⟩) := List.getElem?_eq_getElem (by
          have := length_pos_of_getElem ha
          omega)
      rw [getElem_assignPrevPt_zero (@getElem_gdwt_zero T.rows "delta_t" _ h0)] at hj
      cases hj
      rw [compute_speed_prev_nonpoint (by
        rw [lookupAttr_rowSet_self]
        intro pp hc
        cases hc)] at hfr2
      cases hfr2
    | succ k =>
      have hklen : k + 1 < T.rows.length := by
        have := length_pos_of_getElem hj
        rw [length_assignPrevPt, length_get_df_with_timedelta] at this
        exact this
      have hka : T.rows[k]? = some (T.rows.get ⟨k, by omega⟩) :=
        List.getElem?_eq_getElem (by omega)
      have hkb : T.rows[k + 1]? = some (T.rows.get ⟨k + 1, hklen⟩) :=
        List.getElem?_eq_getElem hklen
      obtain ⟨xk, hxk, hxkg⟩ := @getElem_gdwt_exists _ "delta_t" _ _ hka
      have hyk := @getElem_gdwt_succ _ "delta_t" _ _ _ hka hkb
      rw [getElem_assignPrevPt_succ hxk hyk] at hj
      cases hj
      obtain ⟨pk0, hpk0⟩ := isPointGeom_exists (hap _ (List.getElem?_mem hka))
      obtain ⟨pk1, hpk1⟩ := isPointGeom_exists (hap _ (List.getElem?_mem hkb))
      exact compute_speed_step_error (hxkg.trans hpk0) hpk1 hfr2
  unfold add_speed
  rw [if_neg (by
    intro hc
    rw [hguard] at hc
    exact Bool.false_ne_true hc.1)]
  unfold get_df_with_speed
  dsimp only []
  rw [he2, he2z]

/-- Witness for C2: a two-sample trajectory whose samples share a timestamp
but sit at distinct positions. -/
theorem speed_zero_duration_raises_witness :
    add_speed geoCtx0
      { rows := [⟨5, .pt ⟨0,0⟩, []⟩, ⟨5, .pt ⟨1,0⟩, []⟩], is_latlon := false, id := "Z" }
      false "speed" conv1 = .error .zeroDivision :=
  speed_zero_duration_raises geoCtx0
    { rows := [⟨5, .pt ⟨0,0⟩, []⟩, ⟨5, .pt ⟨1,0⟩, []⟩], is_latlon := false, id := "Z" }
    conv1 (by decide) (by decide) 0 ⟨5, .pt ⟨0,0⟩, []⟩ ⟨5, .pt ⟨1,0⟩, []⟩
    ⟨0,0⟩ ⟨1,0⟩ (by decide) (by decide) (by decide) (by decide) (by decide) (by decide)

/-- A trajectory whose second sample carries a corrupt (non-point) geometry,
with a valid first sample. -/
def trajBadGeom : Traj :=
  { rows := [⟨0, .pt ⟨0,0⟩, []⟩, ⟨60, .invalid, []⟩], is_latlon := false, id := "B" }

/-- Counterexample to C3: with a valid previous endpoint and an invalid
current endpoint, `add_distance` raises a validation error instead of
computing 0.0 for that step, so the claimed "either endpoint invalid gives
0.0 and no error" rule is false. -/
theorem degenerate_invalid_endpoint_cex :
    add_distance geoCtx0 trajBadGeom false "distance" conv1 =
      .error (.valueError "Invalid trajectory! Got a non-point instead of point!") ∧
    compute_distance geoCtx0 false conv1
      (rowSet (rowSet (⟨60, .invalid, []⟩ : Row) "delta_t" (.tdelta 60)) "prev_pt"
        (.geom (.pt ⟨0,0⟩))) ≠ .ok 0 := by
  constructor
  · rfl
  · intro hc
    cases hc

/-- C3 (amended): the degenerate-step rule holds with "either endpoint"
weakened to the previous endpoint: a missing/non-point previous endpoint, or
two valid coincident endpoints, make the per-step distance, speed and
bearing exactly 0 with no error, regardless of the elapsed time stored in
the row; but a valid previous endpoint with an invalid current endpoint
makes the distance and speed computations raise a validation error. -/
theorem degenerate_step_amended (ctx : GeoCtx) (ll : Bool) (conv : Conversion) (r : Row) :
    ((∀ p, lookupAttr r "prev_pt" ≠ some (.geom (.pt p))) →
      compute_distance ctx ll conv r = .ok 0 ∧
      compute_speed ctx ll conv r = .ok (.num 0) ∧
      compute_heading ctx ll r = .ok 0) ∧
    (∀ p, lookupAttr r "prev_pt" = some (.geom (.pt p)) → r.geom = .pt p →
      compute_distance ctx ll conv r = .ok 0 ∧
      compute_speed ctx ll conv r = .ok (.num 0) ∧
      compute_heading ctx ll r = .ok 0) ∧
    (∀ p, lookupAttr r "prev_pt" = some (.geom (.pt p)) → r.geom = .invalid →
      compute_distance ctx ll conv r =
        .error (.valueError "Invalid trajectory! Got a non-point instead of point!") ∧
      compute_speed ctx ll conv r =
        .error (.valueError "Invalid trajectory! Got a non-point instead of point!")) := by
  refine ⟨?_, ?_, ?_⟩
  · intro h
    exact ⟨compute_distance_prev_nonpoint h, compute_speed_prev_nonpoint h,
      compute_heading_prev_nonpoint h⟩
  · intro p hprev hg
    refine ⟨?_, ?_, ?_⟩
    · rw [@compute_distance_valid ctx ll conv r p p hprev hg]
      simp
    · unfold compute_speed
      rw [hprev, hg]
      dsimp only []
      rw [if_pos rfl]
    · rw [@compute_heading_valid ctx ll r p p hprev hg]
      simp
  · intro p hprev hg
    constructor
    · unfold compute_distance
      rw [hprev, hg]
    · unfold compute_speed
      rw [hprev, hg]

/-- Witness for the amended C3 at concrete degenerate rows. -/
theorem degenerate_step_amended_witness :
    (compute_distance geoCtx0 false conv1 (⟨0, .pt ⟨1,1⟩, [("prev_pt", .missing)]⟩ : Row) =
        .ok 0 ∧
      compute_speed geoCtx0 false conv1 (⟨0, .pt ⟨1,1⟩, [("prev_pt", .missing)]⟩ : Row) =
        .ok (.num 0) ∧
      compute_heading geoCtx0 false (⟨0, .pt ⟨1,1⟩, [("prev_pt", .missing)]⟩ : Row) =
        .ok 0) ∧
    (compute_distance geoCtx0 false conv1
        (⟨0, .pt ⟨2,3⟩, [("prev_pt", .geom (.pt ⟨2,3⟩)), ("delta_t", .tdelta 0)]⟩ : Row) =
        .ok 0 ∧
      compute_speed geoCtx0 false conv1
        (⟨0, .pt ⟨2,3⟩, [("prev_pt", .geom (.pt ⟨2,3⟩)), ("delta_t", .tdelta 0)]⟩ : Row) =
        .ok (.num 0) ∧
      compute_heading geoCtx0 false
        (⟨0, .pt ⟨2,3⟩, [("prev_pt", .geom (.pt ⟨2,3⟩)), ("delta_t", .tdelta 0)]⟩ : Row) =
        .ok 0) := by
  constructor
  · exact (degenerate_step_amended geoCtx0 false conv1
      ⟨0, .pt ⟨1,1⟩, [("prev_pt", .missing)]⟩).1 (by intro p hc; cases hc)
  · exact (degenerate_step_amended geoCtx0 false conv1
      ⟨0, .pt ⟨2,3⟩, [("prev_pt", .geom (.pt ⟨2,3⟩)), ("delta_t", .tdelta 0)]⟩).2.1
      ⟨2,3⟩ (by decide) (by decide)

theorem contains_dfColumns_of_lookup {rows : List Row} {name : String} {r0 : Row}
    {v : CellVal} (h0 : rows[0]? = some r0) (hl : lookupAttr r0 name = some v) :
    (dfColumns rows).contains name = true := by
  cases rows with
  | nil => cases h0
  | cons a tl =>
    rw [List.getElem?_cons_zero] at h0
    cases h0
    unfold dfColumns
    unfold lookupAttr at hl
    cases hf : r0.attrs.find? (fun p => p.1 = name) with
    | none => rw [hf] at hl; cases hl
    | some pr =>
      have hpr : pr.1 = name := by
        have := List.find?_some hf
        simpa using this
      have hmem : pr ∈ r0.attrs := List.mem_of_find?_eq_some hf
      rw [List.elem_iff]
      rw [← hpr]
      exact List.mem_map_of_mem (fun p => p.1) hmem

/-- C4: Overwrite guard with atomicity.  After a successful `add_distance`
has created the column, calling it again with the same name and
`overwrite=False` raises the state error naming the column; since the
failing call returns only the error and no DataFrame, every cell of the
sample series is untouched.  The same guard protects every other
`add_<metric>` operation. -/
theorem overwrite_guard_atomic (ctx : GeoCtx) (T : Traj) (conv : Conversion)
    (hs : TimesSorted T.rows) (hlen : 2 ≤ T.rows.length) (hap : AllPoints T.rows)
    (hd : (dfColumns T.rows).contains "distance" = false) :
    (∃ T2, add_distance ctx T false "distance" conv = .ok T2 ∧
      (dfColumns T2.rows).contains "distance" = true ∧
      add_distance ctx T2 false "distance" conv =
        .error (.runtimeError (columnExistsMsg "distance"))) ∧
    (∀ T3 name conv2, (dfColumns T3.rows).contains name = true →
      add_distance ctx T3 false name conv2 =
        .error (.runtimeError (columnExistsMsg name)) ∧
      add_speed ctx T3 false name conv2 =
        .error (.runtimeError (columnExistsMsg name)) ∧
      add_acceleration ctx T3 false name conv2 =
        .error (.runtimeError (columnExistsMsg name)) ∧
      add_timedelta T3 false name =
        .error (.runtimeError (columnExistsMsg name)) ∧
      add_direction ctx T3 false name =
        .error (.runtimeError (columnExistsMsg name)) ∧
      add_angular_difference ctx T3 false name =
        .error (.runtimeError (columnExistsMsg name))) := by
  have hguard : ∀ (T3 : Traj) (name : String), (dfColumns T3.rows).contains name = true →
      ((dfColumns T3.rows).contains name ∧ false = false) := by
    intro T3 name h
    exact ⟨by rw [h], rfl⟩
  constructor
  · obtain ⟨rows2, hok, r0, hr0, hl0⟩ :=
      get_df_with_distance_master ctx T.is_latlon conv T.rows "distance" hs hlen hap
        (by decide)
    refine ⟨{ T with rows := rows2, distance_col_name := some "distance" }, ?_, ?_, ?_⟩
    · unfold add_distance
      rw [if_neg (by
        intro hc
        rw [hd] at hc
        exact Bool.false_ne_true hc.1)]
      rw [hok]
    · exact contains_dfColumns_of_lookup hr0 hl0
    · unfold add_distance
      rw [if_pos (hguard _ _ (contains_dfColumns_of_lookup hr0 hl0))]
  · intro T3 name conv2 h
    refine ⟨?_, ?_, ?_, ?_, ?_, ?_⟩
    · unfold add_distance
      rw [if_pos (hguard T3 name h)]
    · unfold add_speed
      rw [if_pos (hguard T3 name h)]
    · unfold add_acceleration
      rw [if_pos (hguard T3 name h)]
    · unfold add_timedelta
      rw [if_pos (hguard T3 name h)]
    · unfold add_direction
      rw [if_pos (hguard T3 name h)]
    · unfold add_angular_difference
      rw [if_pos (hguard T3 name h)]

/-- Witness for C4 at the concrete trajectory `trajW`. -/
theorem overwrite_guard_atomic_witness :
    (∃ T2, add_distance geoCtx0 trajW false "distance" conv1 = .ok T2 ∧
      (dfColumns T2.rows).contains "distance" = true ∧
      add_distance geoCtx0 T2 false "distance" conv1 =
        .error (.runtimeError (columnExistsMsg "distance"))) ∧
    (∀ T3 name conv2, (dfColumns T3.rows).contains name = true →
      add_distance geoCtx0 T3 false name conv2 =
        .error (.runtimeError (columnExistsMsg name)) ∧
      add_speed geoCtx0 T3 false name conv2 =
        .error (.runtimeError (columnExistsMsg name)) ∧
      add_acceleration geoCtx0 T3 false name conv2 =
        .error (.runtimeError (columnExistsMsg name)) ∧
      add_timedelta T3 false name =
        .error (.runtimeError (columnExistsMsg name)) ∧
      add_direction geoCtx0 T3 false name =
        .error (.runtimeError (columnExistsMsg name)) ∧
      add_angular_difference geoCtx0 T3 false name =
        .error (.runtimeError (columnExistsMsg name))) :=
  overwrite_guard_atomic geoCtx0 trajW conv1 (by decide) (by decide) (by decide) (by decide)

/-- C6: Interpolation round-trip.  Querying `get_position_at` with
`method="interpolated"` at an existing sample timestamp returns that sample
position exactly; and in general, whenever the two bracketing rows found by
ffill/bfill have equal timestamps or coincident positions, the earlier
bracketing position is returned unchanged, with no division performed. -/
theorem interpolation_round_trip (T : Traj) (hs : TimesSorted T.rows) :
    (∀ r p, r ∈ T.rows → r.geom = .pt p →
      get_position_at T r.t "interpolated" = .ok p) ∧
    (∀ t pr nr p0 p1, get_row_at T t "ffill" = .ok pr → get_row_at T t "bfill" = .ok nr →
      pr.geom = .pt p0 → nr.geom = .pt p1 → (nr.t = pr.t ∨ p0 = p1) →
      interpolate_position_at T t = .ok p0) := by
  have hinterp : ∀ t pr nr p0 p1, get_row_at T t "ffill" = .ok pr →
      get_row_at T t "bfill" = .ok nr → pr.geom = .pt p0 → nr.geom = .pt p1 →
      (nr.t = pr.t ∨ p0 = p1) → interpolate_position_at T t = .ok p0 := by
    intro t pr nr p0 p1 hff hbf hp0 hp1 hdeg
    unfold interpolate_position_at
    rw [hff]
    dsimp only []
    rw [hbf]
    dsimp only []
    unfold expectPt
    rw [hp0, hp1]
    dsimp only []
    rw [if_pos]
    rcases hdeg with h | h
    · exact Or.inl (by rw [h]; ring)
    · exact Or.inr h
  refine ⟨?_, hinterp⟩
  intro r p hr hp
  have hrow : get_row_at T r.t "interpolated" = .ok r := by
    unfold get_row_at
    rw [find_self_of_sorted hs hr]
  have hrowf : get_row_at T r.t "ffill" = .ok r := by
    unfold get_row_at
    rw [find_self_of_sorted hs hr]
  have hrowb : get_row_at T r.t "bfill" = .ok r := by
    unfold get_row_at
    rw [find_self_of_sorted hs hr]
  unfold get_position_at
  rw [if_neg (by
    rw [not_or]
    exact ⟨not_lt.2 (startTime_le_mem hr), not_lt.2 (le_endTime_mem hr)⟩)]
  rw [if_neg (by decide)]
  rw [if_pos rfl]
  exact hinterp r.t r r p p hrowf hrowb hp hp (Or.inl rfl)

/-- Witness for C6 at the concrete trajectory `trajW`, querying the second
sample timestamp. -/
theorem interpolation_round_trip_witness :
    get_position_at trajW 360 "interpolated" = .ok ⟨6, 0⟩ ∧
    interpolate_position_at trajW 360 = .ok ⟨6, 0⟩ := by
  constructor
  · exact (interpolation_round_trip trajW (by decide)).1 ⟨360, .pt ⟨6,0⟩, []⟩ ⟨6,0⟩
      (by decide) (by decide)
  · exact (interpolation_round_trip trajW (by decide)).2 360
      ⟨360, .pt ⟨6,0⟩, []⟩ ⟨360, .pt ⟨6,0⟩, []⟩ ⟨6,0⟩ ⟨6,0⟩
      (by rfl) (by rfl) (by decide) (by decide) (Or.inl rfl)

/-- C7: `get_segment_between(t1, t2)` returns a new child Trajectory holding
exactly the samples with timestamp in the closed interval `[t1, t2]`, and
fails whenever that slice has fewer than 2 samples (with strictly
increasing timestamps, a slice of 2 or more samples always has positive
duration, so these are exactly the degenerate slices). -/
theorem segment_between_spec (T : Traj) (t1 t2 : ℚ) (hs : TimesSorted T.rows) :
    (2 ≤ (T.rows.filter (fun r => t1 ≤ r.t ∧ r.t ≤ t2)).length →
      ∃ seg, get_segment_between T t1 t2 = .ok seg ∧
        seg.rows = T.rows.filter (fun r => t1 ≤ r.t ∧ r.t ≤ t2) ∧
        seg.parent = some T.id) ∧
    ((T.rows.filter (fun r => t1 ≤ r.t ∧ r.t ≤ t2)).length < 2 →
      ∃ e, get_segment_between T t1 t2 = .error e) := by
  have hF : TimesSorted (T.rows.filter (fun r => t1 ≤ r.t ∧ r.t ≤ t2)) :=
    List.Pairwise.filter _ hs
  constructor
  · intro hlen
    have hsortF : sortRows (T.rows.filter (fun r => t1 ≤ r.t ∧ r.t ≤ t2)) =
        T.rows.filter (fun r => t1 ≤ r.t ∧ r.t ≤ t2) := by
      unfold sortRows
      exact List.Sorted.insertionSort_eq
        (List.Pairwise.imp (fun h => le_of_lt h) hF)
    have hdedup : dropDupBy (fun r => r.t)
        (T.rows.filter (fun r => t1 ≤ r.t ∧ r.t ≤ t2)) [] =
        T.rows.filter (fun r => t1 ≤ r.t ∧ r.t ≤ t2) :=
      dropDupBy_eq_self _ (List.Pairwise.imp (fun h => ne_of_lt h) hF)
        (fun x _ hc => (List.not_mem_nil _ hc))
    have hinit : trajectory_init (T.rows.filter (fun r => t1 ≤ r.t ∧ r.t ≤ t2))
        (T.id ++ "_" ++ toString t1) T.is_latlon (some T.id) =
        .ok { rows := T.rows.filter (fun r => t1 ≤ r.t ∧ r.t ≤ t2),
              is_latlon := T.is_latlon, id := T.id ++ "_" ++ toString t1,
              parent := some T.id } := by
      unfold trajectory_init
      rw [if_neg (not_lt.2 hlen), hsortF, hdedup]
    have hvalid : traj_is_valid
        { rows := T.rows.filter (fun r => t1 ≤ r.t ∧ r.t ≤ t2),
          is_latlon := T.is_latlon, id := T.id ++ "_" ++ toString t1,
          parent := some T.id : Traj } = true := by
      unfold traj_is_valid
      rw [if_neg (not_lt.2 hlen)]
      rw [decide_eq_true_eq]
      exact startTime_lt_endTime hF hlen
    refine ⟨{ rows := T.rows.filter (fun r => t1 ≤ r.t ∧ r.t ≤ t2),
              is_latlon := T.is_latlon, id := T.id ++ "_" ++ toString t1,
              parent := some T.id }, ?_, rfl, rfl⟩
    unfold get_segment_between
    rw [hinit]
    dsimp only []
    rw [if_pos hvalid]
  · intro hlen
    refine ⟨.valueError "The input DataFrame must have at least two rows.", ?_⟩
    unfold get_segment_between
    unfold trajectory_init
    rw [if_pos hlen]

/-- Witness for C7 at the concrete trajectory `trajW`: a two-sample slice
succeeds with exactly the in-range samples, a one-sample slice fails. -/
theorem segment_between_spec_witness :
    (∃ seg, get_segment_between trajW 0 400 = .ok seg ∧
      seg.rows = trajW.rows.filter (fun r => 0 ≤ r.t ∧ r.t ≤ 400) ∧
      seg.parent = some trajW.id) ∧
    (∃ e, get_segment_between trajW 0 10 = .error e) :=
  ⟨(segment_between_spec trajW 0 400 (by decide)).1 (by decide),
   (segment_between_spec trajW 0 10 (by decide)).2 (by decide)⟩

theorem ffill_fold_const {t : ℚ} : ∀ (l : List ℚ) (acc : ℤ) (i : ℕ),
    (∀ x ∈ l, ¬x ≤ t) →
    (l.foldl (fun (acc : ℤ × ℕ) x =>
      (if x ≤ t then (acc.2 : ℤ) else acc.1, acc.2 + 1)) (acc, i)).1 = acc
  | [], acc, i, _ => rfl
  | x :: xs, acc, i, h => by
    rw [List.foldl_cons]
    rw [if_neg (h x (List.mem_cons_self x xs))]
    exact ffill_fold_const xs acc (i + 1) (fun y hy => h y (List.mem_cons_of_mem x hy))

theorem ffill_fold_all {t : ℚ} : ∀ (l : List ℚ) (acc : ℤ) (i : ℕ),
    l ≠ [] → (∀ x ∈ l, x ≤ t) →
    (l.foldl (fun (acc : ℤ × ℕ) x =>
      (if x ≤ t then (acc.2 : ℤ) else acc.1, acc.2 + 1)) (acc, i)).1 = (i : ℤ) + l.length - 1
  | [], acc, i, hne, _ => absurd rfl hne
  | x :: xs, acc, i, _, h => by
    rw [List.foldl_cons]
    rw [if_pos (h x (List.mem_cons_self x xs))]
    cases hxs : xs with
    | nil => simp
    | cons y ys =>
      rw [← hxs]
      have := ffill_fold_all xs (i : ℤ) (i + 1) (by rw [hxs]; exact List.cons_ne_nil y ys)
        (fun z hz => h z (List.mem_cons_of_mem x hz))
      rw [this]
      simp only [List.length_cons]
      push_cast
      ring

theorem ffillIndexer_neg {times : List ℚ} {t : ℚ} (h : ∀ x ∈ times, ¬x ≤ t) :
    ffillIndexer times t = -1 :=
  ffill_fold_const times (-1) 0 h

theorem ffillIndexer_all {times : List ℚ} {t : ℚ} (hne : times ≠ [])
    (h : ∀ x ∈ times, x ≤ t) : ffillIndexer times t = (times.length : ℤ) - 1 := by
  unfold ffillIndexer
  rw [ffill_fold_all times (-1) 0 hne h]
  simp

theorem bfillIndexer_head {t x : ℚ} {xs : List ℚ} (h : t ≤ x) :
    bfillIndexer (x :: xs) t = 0 := by
  unfold bfillIndexer
  rw [List.findIdx?_cons, if_pos (by simpa using h)]
  rfl

theorem bfillIndexer_neg {times : List ℚ} {t : ℚ} (h : ∀ x ∈ times, ¬t ≤ x) :
    bfillIndexer times t = -1 := by
  unfold bfillIndexer
  rw [List.findIdx?_eq_none_iff.2 (fun x hx => by simpa using h x hx)]

theorem ilocRow_eq {rows : List Row} {idx : ℤ} {j : ℕ}
    (hidx : (if idx < 0 then (rows.length : ℤ) + idx else idx) = (j : ℤ))
    (hj : j < rows.length) : ilocRow rows idx = .ok (rows.get ⟨j, hj⟩) := by
  unfold ilocRow
  dsimp only []
  simp only [hidx]
  rw [dif_pos ⟨by omega, by omega⟩]
  rfl

theorem ilocRow_zero {rows : List Row} (h : 0 < rows.length) :
    ilocRow rows 0 = .ok (rows.get ⟨0, h⟩) :=
  ilocRow_eq (by norm_num) h

theorem ilocRow_last {rows : List Row} (h : 0 < rows.length) :
    ilocRow rows ((rows.length : ℤ) - 1) = .ok (rows.get ⟨rows.length - 1, by omega⟩) :=
  ilocRow_eq (by rw [if_neg (by omega)]; omega) (by omega)

/-- Under the constructor invariant, the sorted-deduplicated index
`get_row_at` builds is exactly the trajectory's timestamp sequence. -/
theorem rowat_index_eq {rows : List Row} (hs : TimesSorted rows) :
    dropDupBy id (List.insertionSort (fun a b : ℚ => a ≤ b) (rows.map (fun r => r.t))) [] =
      rows.map (fun r => r.t) := by
  have hmap : (rows.map (fun r => r.t)).Pairwise (fun a b => a < b) :=
    timesSorted_iff_map.1 hs
  rw [List.Sorted.insertionSort_eq (List.Pairwise.imp (fun h => le_of_lt h) hmap)]
  exact dropDupBy_eq_self id (List.Pairwise.imp (fun h => ne_of_lt h) hmap)
    (fun x _ hc => List.not_mem_nil _ hc)

/-- C10 (implicit): `get_row_at` performs no time-range check.  With
`method="nearest"`, a query before the start time returns the first row and a
query after the end time returns the last row — no error — whereas
`get_position_at` rejects any out-of-range timestamp with a range error
regardless of the method. -/
theorem row_at_no_range_check (T : Traj) (t : ℚ)
    (hs : TimesSorted T.rows) (hlen : 2 ≤ T.rows.length) :
    (t < startTime T.rows → ∃ r0, T.rows[0]? = some r0 ∧
      get_row_at T t "nearest" = .ok r0) ∧
    (endTime T.rows < t → ∃ rl, T.rows[T.rows.length - 1]? = some rl ∧
      get_row_at T t "nearest" = .ok rl) ∧
    (t < startTime T.rows ∨ endTime T.rows < t →
      ∀ method, ∃ msg, get_position_at T t method = .error (.valueError msg)) := by
  refine ⟨?_, ?_, ?_⟩
  · intro ht
    have hfind : T.rows.find? (fun r => r.t = t) = none := by
      rw [List.find?_eq_none]
      intro r hr
      simp only [decide_eq_true_eq]
      exact ne_of_gt (lt_of_lt_of_le ht (startTime_le_mem hr))
    have hff : ffillIndexer (T.rows.map (fun r => r.t)) t = -1 :=
      ffillIndexer_neg (by
        intro x hx
        obtain ⟨r, hr, hrx⟩ := List.mem_map.1 hx
        rw [← hrx]
        exact not_le.2 (lt_of_lt_of_le ht (startTime_le_mem hr)))
    have hbf : bfillIndexer (T.rows.map (fun r => r.t)) t = 0 := by
      cases hrows : T.rows with
      | nil => rw [hrows] at hlen; simp at hlen
      | cons r0 tl =>
        rw [List.map_cons]
        apply bfillIndexer_head
        rw [hrows, startTime_eq_head (hrows ▸ hs)] at ht
        exact le_of_lt ht
    have hnear : getIndexer (T.rows.map (fun r => r.t)) t "nearest" = 0 := by
      unfold getIndexer
      rw [if_pos rfl]
      unfold nearestIndexer
      dsimp only []
      rw [hff, hbf]
      norm_num
    refine ⟨T.rows.get ⟨0, by omega⟩, List.getElem?_eq_getElem (by omega), ?_⟩
    unfold get_row_at
    rw [hfind]
    dsimp only []
    rw [rowat_index_eq hs, hnear]
    exact ilocRow_zero (by omega)
  · intro ht
    have hfind : T.rows.find? (fun r => r.t = t) = none := by
      rw [List.find?_eq_none]
      intro r hr
      simp only [decide_eq_true_eq]
      exact ne_of_lt (lt_of_le_of_lt (le_endTime_mem hr) ht)
    have hff : ffillIndexer (T.rows.map (fun r => r.t)) t =
        ((T.rows.map (fun r => r.t)).length : ℤ) - 1 :=
      ffillIndexer_all (by
        intro hc
        rw [List.map_eq_nil_iff] at hc
        rw [hc] at hlen
        simp at hlen)
        (by
          intro x hx
          obtain ⟨r, hr, hrx⟩ := List.mem_map.1 hx
          rw [← hrx]
          exact le_of_lt (lt_of_le_of_lt (le_endTime_mem hr) ht))
    have hbf : bfillIndexer (T.rows.map (fun r => r.t)) t = -1 :=
      bfillIndexer_neg (by
        intro x hx
        obtain ⟨r, hr, hrx⟩ := List.mem_map.1 hx
        rw [← hrx]
        exact not_le.2 (lt_of_le_of_lt (le_endTime_mem hr) ht))
    have hnear : getIndexer (T.rows.map (fun r => r.t)) t "nearest" =
        (T.rows.length : ℤ) - 1 := by
      unfold getIndexer
      rw [if_pos rfl]
      unfold nearestIndexer
      dsimp only []
      rw [hff, hbf, if_pos rfl, List.length_map]
    refine ⟨T.rows.get ⟨T.rows.length - 1, by omega⟩,
      List.getElem?_eq_getElem (by omega), ?_⟩
    unfold get_row_at
    rw [hfind]
    dsimp only []
    rw [rowat_index_eq hs]
    exact (congrArg (ilocRow T.rows) hnear).trans (ilocRow_last (by omega))
  · intro ht method
    refine ⟨"Timestamp outside the trajectory time range", ?_⟩
    unfold get_position_at
    rw [if_pos ht]

/-- Witness for C10 at the concrete trajectory `trajW` with out-of-range
query timestamps. -/
theorem row_at_no_range_check_witness :
    (∃ r0, trajW.rows[0]? = some r0 ∧ get_row_at trajW (-50) "nearest" = .ok r0) ∧
    (∃ rl, trajW.rows[trajW.rows.length - 1]? = some rl ∧
      get_row_at trajW 1000 "nearest" = .ok rl) ∧
    (∃ msg, get_position_at trajW (-50) "nearest" = .error (.valueError msg)) :=
  ⟨(row_at_no_range_check trajW (-50) (by decide) (by decide)).1 (by decide),
   (row_at_no_range_check trajW 1000 (by decide) (by decide)).2.1 (by decide),
   (row_at_no_range_check trajW (-50) (by decide) (by decide)).2.2
     (Or.inl (by decide)) "nearest"⟩

theorem take_append_exact {α : Type _} : ∀ (xs ys : List α) (n : ℕ),
    (xs ++ ys).take (xs.length + n) = xs ++ ys.take n
  | [], ys, n => by simp
  | x :: xs, ys, n => by
    simp only [List.cons_append, List.length_cons, Nat.succ_add, List.take_succ_cons,
      take_append_exact xs ys n]

theorem wkt_coords_spec (showq : ℚ → PyStr) : ∀ rows : List Row, AllPoints rows →
    ∃ coords, wktCoords showq rows = .ok coords ∧
      coords.take (coords.length - 2) = wktJoin [',', ' '] (rows.map (wktTriple showq)) ∧
      (rows ≠ [] → 2 ≤ coords.length)
  | [], _ => ⟨[], rfl, rfl, fun hc => absurd rfl hc⟩
  | r :: rs, hap => by
    obtain ⟨p, hp⟩ := isPointGeom_exists (hap r (List.mem_cons_self r rs))
    obtain ⟨coords, hc, htake, hlen⟩ :=
      wkt_coords_spec showq rs (fun x hx => hap x (List.mem_cons_of_mem r hx))
    have htrip : wktTriple showq r =
        showq p.x ++ [' '] ++ showq p.y ++ [' '] ++ showq (to_unixtime r.t) := by
      unfold wktTriple
      rw [hp]
    refine ⟨(showq p.x ++ [' '] ++ showq p.y ++ [' '] ++ showq (to_unixtime r.t)) ++
      [',', ' '] ++ coords, ?_, ?_, ?_⟩
    · unfold wktCoords
      rw [hp]
      dsimp only []
      rw [hc]
    · cases hrs : rs with
      | nil =>
        rw [hrs] at hc
        cases hc
        rw [List.map_cons, List.map_nil]
        have h2 : ((showq p.x ++ [' '] ++ showq p.y ++ [' '] ++ showq (to_unixtime r.t)) ++
            [',', ' '] ++ ([] : PyStr)).length =
            (showq p.x ++ [' '] ++ showq p.y ++ [' '] ++ showq (to_unixtime r.t)).length
              + 2 := by
          simp
          omega
        rw [h2]
        rw [Nat.add_sub_cancel]
        have := take_append_exact
          (showq p.x ++ [' '] ++ showq p.y ++ [' '] ++ showq (to_unixtime r.t))
          ([',', ' '] ++ ([] : PyStr)) 0
        rw [Nat.add_zero] at this
        rw [← List.append_assoc] at this
        rw [this]
        unfold wktJoin
        rw [htrip]
        simp
      | cons r2 rs2 =>
        rw [← hrs]
        have hrsne : rs ≠ [] := by rw [hrs]; exact List.cons_ne_nil r2 rs2
        have hL := hlen hrsne
        have h2 : ((showq p.x ++ [' '] ++ showq p.y ++ [' '] ++ showq (to_unixtime r.t)) ++
            [',', ' '] ++ coords).length =
            (showq p.x ++ [' '] ++ showq p.y ++ [' '] ++ showq (to_unixtime r.t)).length
              + (2 + coords.length) := by
          simp
          omega
        rw [h2]
        have h3 : (showq p.x ++ [' '] ++ showq p.y ++ [' '] ++
            showq (to_unixtime r.t)).length + (2 + coords.length) - 2 =
            (showq p.x ++ [' '] ++ showq p.y ++ [' '] ++ showq (to_unixtime r.t)).length
              + coords.length := by omega
        rw [h3]
        have h4 := take_append_exact
          (showq p.x ++ [' '] ++ showq p.y ++ [' '] ++ showq (to_unixtime r.t))
          ([',', ' '] ++ coords) coords.length
        rw [← List.append_assoc] at h4
        rw [h4]
        have h5 : coords.length = 2 + (coords.length - 2) := by omega
        have h6 := take_append_exact ([',', ' '] : PyStr) coords (coords.length - 2)
        have h7 : ([',', ' '] : PyStr).length + (coords.length - 2) = coords.length := by
          simp
          omega
        rw [h7] at h6
        rw [h6, htake]
        have hmapne : ∃ b bs, rs.map (wktTriple showq) = b :: bs := by
          rw [hrs, List.map_cons]
          exact ⟨_, _, rfl⟩
        obtain ⟨b, bs, hb⟩ := hmapne
        rw [List.map_cons, hb]
        rw [show wktJoin [',', ' '] (wktTriple showq r :: b :: bs) =
          wktTriple showq r ++ [',', ' '] ++ wktJoin [',', ' '] (b :: bs) from rfl]
        rw [htrip]
        simp [List.append_assoc]
    · intro _
      simp
      omega

/-- C9: `to_linestringm_wkt` produces the string `LINESTRING M (...)` in
which each sample contributes the triple `x y unix_timestamp` in sample
order, consecutive triples separated by a comma and a space, with no
trailing separator after the last triple. -/
theorem linestringm_wkt_format (showq : ℚ → PyStr) (T : Traj)
    (hap : AllPoints T.rows) :
    to_linestringm_wkt showq T =
      .ok ("LINESTRING M (".toList ++
        wktJoin [',', ' '] (T.rows.map (wktTriple showq)) ++ ")".toList) := by
  obtain ⟨coords, hc, htake, _⟩ := wkt_coords_spec showq T.rows hap
  unfold to_linestringm_wkt
  rw [hc]
  dsimp only []
  rw [htake]

/-- Witness for C9 at the concrete trajectory `trajW` with a fixed external
float renderer. -/
theorem linestringm_wkt_format_witness :
    to_linestringm_wkt (fun q => (toString q.num).toList) trajW =
      .ok ("LINESTRING M (".toList ++
        wktJoin [',', ' ']
          (trajW.rows.map (wktTriple (fun q => (toString q.num).toList))) ++ ")".toList) :=
  linestringm_wkt_format (fun q => (toString q.num).toList) trajW (by decide)

/-- A trajectory that already carries a user column named `prev_pt`. -/
def trajPrev : Traj :=
  { rows := [⟨0, .pt ⟨0,0⟩, [("prev_pt", .num 5)]⟩, ⟨60, .pt ⟨1,0⟩, [("prev_pt", .num 6)]⟩],
    is_latlon := false, id := "P" }

/-- Counterexample to C8: `add_direction` succeeds on a trajectory that
already has a user column named `prev_pt`, and the successful call removes
that existing column — contradicting "never removes existing attribute
columns". -/
theorem frame_effect_cex :
    (dfColumns trajPrev.rows).contains "prev_pt" = true ∧
    add_direction geoCtx0 trajPrev false "direction" =
      .ok { rows := [⟨0, .pt ⟨0,0⟩, [("direction", .num 9)]⟩,
                     ⟨60, .pt ⟨1,0⟩, [("direction", .num 9)]⟩],
            is_latlon := false, id := "P", direction_col_name := some "direction" } ∧
    (dfColumns [(⟨0, .pt ⟨0,0⟩, [("direction", .num 9)]⟩ : Row),
                ⟨60, .pt ⟨1,0⟩, [("direction", .num 9)]⟩]).contains "prev_pt" = false := by
  refine ⟨by decide, by rfl, by decide⟩

/-- The frame effect the amended C8 asserts: the operation appended exactly
one cell named `name` to every sample, after all existing attributes, and
left timestamps, positions, and all existing attribute cells unchanged. -/
def AddsOnly (name : String) (old new : List Row) : Prop :=
  new.length = old.length ∧
  ∀ (i : ℕ) (r : Row), old[i]? = some r →
    ∃ v, new[i]? = some { r with attrs := r.attrs ++ [(name, v)] }

theorem any_eq_false_of_forall {A : List (String × CellVal)} {n : String}
    (h : ∀ p ∈ A, p.1 ≠ n) : (A.any (fun p => p.1 = n)) = false := by
  rw [List.any_eq_false]
  intro p hp
  simpa using h p hp

theorem rowSet_append {r : Row} {n : String} {v : CellVal}
    (h : ∀ p ∈ r.attrs, p.1 ≠ n) :
    rowSet r n v = { r with attrs := r.attrs ++ [(n, v)] } := by
  unfold rowSet
  rw [if_neg (by rw [any_eq_false_of_forall h]; exact Bool.false_ne_true)]

theorem rowSet_replace_last {t0 : ℚ} {g : Geom} {A : List (String × CellVal)} {n : String}
    {v v2 : CellVal} (h : ∀ p ∈ A, p.1 ≠ n) :
    rowSet ⟨t0, g, A ++ [(n, v)]⟩ n v2 = ⟨t0, g, A ++ [(n, v2)]⟩ := by
  unfold rowSet
  rw [if_pos (by
    dsimp only []
    rw [List.any_append]
    simp)]
  dsimp only []
  congr 1
  rw [List.map_append]
  congr 1
  · exact (List.map_congr_left (fun p hp => if_neg (h p hp))).trans (List.map_id A)
  · simp

theorem filter_ne_of_forall {A : List (String × CellVal)} {n : String}
    (h : ∀ p ∈ A, p.1 ≠ n) : A.filter (fun p => p.1 ≠ n) = A :=
  List.filter_eq_self.mpr (fun p hp => by simpa using h p hp)

theorem contains_false_of_forall {rows : List Row} {n : String}
    (h : ∀ r ∈ rows, ∀ p ∈ r.attrs, p.1 ≠ n) :
    (dfColumns rows).contains n = false := by
  cases rows with
  | nil => rfl
  | cons r tl =>
    unfold dfColumns
    rw [← Bool.not_eq_true, List.elem_iff]
    intro hc
    obtain ⟨p, hp, hpe⟩ := List.mem_map.1 hc
    exact h r (List.mem_cons_self r tl) p hp hpe

/-- Successive `df.drop(columns=[n])` calls. -/
def dropCols (rows : List Row) (names : List String) : List Row :=
  names.foldl dropCol rows

theorem getElem_dropCols_some : ∀ (names : List String) {rows : List Row} {i : ℕ} {x : Row},
    rows[i]? = some x →
    (dropCols rows names)[i]? =
      some { x with attrs := names.foldl (fun A n => A.filter (fun p => p.1 ≠ n)) x.attrs }
  | [], rows, i, x, h => h
  | n :: ns, rows, i, x, h => by
    unfold dropCols
    rw [List.foldl_cons]
    have h1 := @getElem_dropCol_some rows n i x h
    have h2 := getElem_dropCols_some ns h1
    unfold dropCols at h2
    rw [h2]
    rfl

theorem length_dropCols (rows : List Row) : ∀ names : List String,
    (dropCols rows names).length = rows.length := by
  intro names
  induction names generalizing rows with
  | nil => rfl
  | cons n ns ih =>
    unfold dropCols
    rw [List.foldl_cons]
    have := ih (dropCol rows n)
    unfold dropCols at this
    rw [this, length_dropCol]

theorem filterChain_eq : ∀ (names : List String) (A : List (String × CellVal)),
    names.foldl (fun A n => A.filter (fun p => p.1 ≠ n)) A =
      A.filter (fun p => p.1 ∉ names)
  | [], A => by
    rw [List.foldl_nil]
    exact (List.filter_eq_self.mpr (fun p _ => by simp)).symm
  | n :: ns, A => by
    rw [List.foldl_cons, filterChain_eq ns (A.filter (fun p => p.1 ≠ n)),
      List.filter_filter]
    apply List.filter_congr
    intro p _
    simp only [List.mem_cons, not_or, decide_not, Bool.and_comm]
    cases h1 : decide (p.1 = n) <;> cases h2 : decide (p.1 ∈ ns) <;> simp_all

/-- The common tail of the metric pipelines preserves every existing cell and
appends exactly one cell named `name`, with the transient columns dropped
afterwards. -/
theorem addsOnly_pipeline {old temps : List Row} {name : String} {vals : List CellVal}
    {t0 : ℚ} {v1 : CellVal} (tempNames : List String)
    (hLlen : temps.length = old.length)
    (hvlen : old.length ≤ vals.length)
    (htemps : ∀ (i : ℕ) (r : Row), old[i]? = some r →
      ∃ extra, temps[i]? = some ⟨r.t, r.geom, r.attrs ++ extra⟩ ∧
        ∀ p ∈ extra, p.1 ∈ tempNames)
    (hattr : ∀ r ∈ old, ∀ p ∈ r.attrs, p.1 ∉ tempNames ∧ p.1 ≠ name)
    (hname : name ∉ tempNames) :
    AddsOnly name old
      (dropCols (setAtTime (setColVals temps name vals) t0 name v1) tempNames) := by
  constructor
  · rw [length_dropCols, length_setAtTime, length_setColVals, hLlen]
    omega
  · intro i r hr
    have hi : i < old.length := length_pos_of_getElem hr
    obtain ⟨extra, htempi, hextra⟩ := htemps i r hr
    have hrmem : r ∈ old := List.getElem?_mem hr
    have hnf : ∀ p ∈ r.attrs ++ extra, p.1 ≠ name := by
      intro p hp
      rcases List.mem_append.1 hp with h1 | h1
      · exact (hattr r hrmem p h1).2
      · intro hc
        exact hname (hc ▸ hextra p h1)
    obtain ⟨w, hw⟩ : ∃ w, vals[i]? = some w :=
      ⟨vals.get ⟨i, by omega⟩, List.getElem?_eq_getElem (by omega)⟩
    have hset : (setColVals temps name vals)[i]? =
        some ⟨r.t, r.geom, (r.attrs ++ extra) ++ [(name, w)]⟩ := by
      rw [getElem_setColVals_some htempi hw, rowSet_append hnf]
    have hat : ∃ v, (setAtTime (setColVals temps name vals) t0 name v1)[i]? =
        some ⟨r.t, r.geom, (r.attrs ++ extra) ++ [(name, v)]⟩ := by
      rw [getElem_setAtTime, hset]
      by_cases hteq : (⟨r.t, r.geom, (r.attrs ++ extra) ++ [(name, w)]⟩ : Row).t = t0
      · refine ⟨v1, ?_⟩
        rw [Option.map]
        rw [if_pos hteq]
        rw [rowSet_replace_last hnf]
      · refine ⟨w, ?_⟩
        rw [Option.map]
        rw [if_neg hteq]
    obtain ⟨v, hv⟩ := hat
    refine ⟨v, ?_⟩
    rw [getElem_dropCols_some tempNames hv]
    congr 2
    rw [filterChain_eq]
    rw [List.filter_append, List.filter_append]
    rw [List.filter_eq_self.mpr (fun p hp => by
      simpa using (hattr r hrmem p hp).1)]
    rw [show extra.filter (fun p => p.1 ∉ tempNames) = [] from
      List.filter_eq_nil_iff.mpr (fun p hp => by simpa using hextra p hp)]
    rw [show List.filter (fun p => decide (p.1 ∉ tempNames)) [(name, v)] = [(name, v)] from by
      rw [List.filter_cons_of_pos (by simpa using hname)]
      rfl]
    rw [List.append_nil]

theorem assignPrevPt_shape {rows : List Row}
    (h : ∀ r ∈ rows, ∀ p ∈ r.attrs, p.1 ≠ "prev_pt") :
    ∀ (i : ℕ) (r : Row), rows[i]? = some r →
      ∃ sv, (assignPrevPt rows)[i]? =
        some ⟨r.t, r.geom, r.attrs ++ [("prev_pt", sv)]⟩ := by
  intro i r hr
  cases i with
  | zero =>
    refine ⟨.missing, ?_⟩
    rw [getElem_assignPrevPt_zero hr, rowSet_append (h r (List.getElem?_mem hr))]
  | succ j =>
    have hj : j < rows.length := by
      have := length_pos_of_getElem hr
      omega
    have ha : rows[j]? = some (rows.get ⟨j, hj⟩) := List.getElem?_eq_getElem hj
    refine ⟨.geom (rows.get ⟨j, hj⟩).geom, ?_⟩
    rw [getElem_assignPrevPt_succ ha hr, rowSet_append (h r (List.getElem?_mem hr))]

theorem gdwt_shape {rows : List Row} {n : String}
    (h : ∀ r ∈ rows, ∀ p ∈ r.attrs, p.1 ≠ n) :
    ∀ (i : ℕ) (r : Row), rows[i]? = some r →
      ∃ dv, (get_df_with_timedelta rows n)[i]? =
        some ⟨r.t, r.geom, r.attrs ++ [(n, dv)]⟩ := by
  intro i r hr
  cases i with
  | zero =>
    refine ⟨.missing, ?_⟩
    rw [getElem_gdwt_zero hr, rowSet_append (h r (List.getElem?_mem hr))]
  | succ j =>
    have hj : j < rows.length := by
      have := length_pos_of_getElem hr
      omega
    have ha : rows[j]? = some (rows.get ⟨j, hj⟩) := List.getElem?_eq_getElem hj
    refine ⟨.tdelta (r.t - (rows.get ⟨j, hj⟩).t), ?_⟩
    rw [getElem_gdwt_succ ha hr, rowSet_append (h r (List.getElem?_mem hr))]

theorem copySecond_ok_inv {rows out : List Row} {name : String}
    (h : copySecondRowToFirst rows name = .ok out) :
    ∃ v1, out = setAtTime rows (startTime rows) name v1 := by
  unfold copySecondRowToFirst at h
  cases h1 : rows[1]? with
  | none => rw [h1] at h; cases h
  | some r1 =>
    rw [h1] at h
    dsimp only [] at h
    cases h2 : lookupAttr r1 name with
    | none => rw [h2] at h; cases h
    | some v =>
      rw [h2] at h
      cases h
      exact ⟨v, rfl⟩

/-- `get_df_with_distance` adds exactly the one named column. -/
theorem gdwdist_addsOnly {ctx : GeoCtx} {ll : Bool} {conv : Conversion}
    {rows rows2 : List Row} {name : String}
    (hpp : ∀ r ∈ rows, ∀ p ∈ r.attrs, p.1 ≠ "prev_pt")
    (hname : ∀ r ∈ rows, ∀ p ∈ r.attrs, p.1 ≠ name)
    (hnp : name ≠ "prev_pt")
    (h : get_df_with_distance ctx ll conv rows name = .ok rows2) :
    AddsOnly name rows rows2 := by
  unfold get_df_with_distance at h
  dsimp only [] at h
  cases hm : mapRows (compute_distance ctx ll conv) (assignPrevPt rows) with
  | error e => rw [hm] at h; cases h
  | ok vals =>
    rw [hm] at h
    dsimp only [] at h
    cases h
    apply addsOnly_pipeline ["prev_pt"]
    · rw [length_assignPrevPt]
    · rw [List.length_map, mapRows_ok_length hm, length_assignPrevPt]
    · intro i r hr
      obtain ⟨sv, hsv⟩ := assignPrevPt_shape hpp i r hr
      exact ⟨[("prev_pt", sv)], hsv, by intro p hp; simp [List.mem_singleton.1 hp]⟩
    · intro r hrm p hp
      refine ⟨?_, hname r hrm p hp⟩
      simp only [List.mem_singleton]
      exact hpp r hrm p hp
    · simpa using hnp

/-- `get_df_with_speed` adds exactly the one named column. -/
theorem gdwspeed_addsOnly {ctx : GeoCtx} {ll : Bool} {conv : Conversion}
    {rows rows2 : List Row} {name : String}
    (hpp : ∀ r ∈ rows, ∀ p ∈ r.attrs, p.1 ≠ "prev_pt")
    (hdt : ∀ r ∈ rows, ∀ p ∈ r.attrs, p.1 ≠ "delta_t")
    (hname : ∀ r ∈ rows, ∀ p ∈ r.attrs, p.1 ≠ name)
    (hnp : name ≠ "prev_pt") (hnd : name ≠ "delta_t")
    (h : get_df_with_speed ctx ll conv rows name = .ok rows2) :
    AddsOnly name rows rows2 := by
  unfold get_df_with_speed at h
  dsimp only [] at h
  cases hm : mapRows (compute_speed ctx ll conv)
      (assignPrevPt (get_df_with_timedelta rows "delta_t")) with
  | error e => rw [hm] at h; cases h
  | ok vals =>
    rw [hm] at h
    dsimp only [] at h
    cases hc : copySecondRowToFirst
        (setColVals (assignPrevPt (get_df_with_timedelta rows "delta_t")) name vals) name with
    | error e => rw [hc] at h; cases h
    | ok out =>
      rw [hc] at h
      dsimp only [] at h
      cases h
      obtain ⟨v1, hout⟩ := copySecond_ok_inv hc
      rw [hout]
      apply addsOnly_pipeline ["prev_pt", "delta_t"]
      · rw [length_assignPrevPt]
        unfold get_df_with_timedelta
        rw [length_setColVals, length_timedeltaVals]
        omega
      · rw [mapRows_ok_length hm, length_assignPrevPt]
        unfold get_df_with_timedelta
        rw [length_setColVals, length_timedeltaVals]
        omega
      · intro i r hr
        obtain ⟨dv, hdv⟩ := gdwt_shape hdt i r hr
        have hpp2 : ∀ r2 ∈ get_df_with_timedelta rows "delta_t", ∀ p ∈ r2.attrs,
            p.1 ≠ "prev_pt" := by
          intro r2 hr2 p hp
          obtain ⟨j, hj, hje⟩ := List.getElem_of_mem hr2
          have hjq : (get_df_with_timedelta rows "delta_t")[j]? = some r2 := by
            rw [List.getElem?_eq_getElem hj, hje]
          obtain ⟨a, ha⟩ : ∃ a, rows[j]? = some a := by
            refine ⟨rows.get ⟨j, ?_⟩, List.getElem?_eq_getElem _⟩
            have := length_pos_of_getElem hjq
            unfold get_df_with_timedelta at this
            rw [length_setColVals, length_timedeltaVals] at this
            omega
          obtain ⟨dv2, hdv2⟩ := gdwt_shape hdt j a ha
          rw [hjq] at hdv2
          cases hdv2
          rcases List.mem_append.1 hp with h1 | h1
          · exact hpp a (List.getElem?_mem ha) p h1
          · rw [List.mem_singleton.1 h1]
            exact (by decide : ¬("delta_t" : String) = "prev_pt")
        obtain ⟨sv, hsv⟩ := assignPrevPt_shape hpp2 i _ hdv
        refine ⟨[("delta_t", dv), ("prev_pt", sv)], ?_, ?_⟩
        · rw [hsv]
          congr 2
          rw [List.append_assoc]
          rfl
        · intro p hp
          rcases List.mem_cons.1 hp with h1 | h1
          · rw [h1]; simp
          · rw [List.mem_singleton.1 h1]; simp
      · intro r hrm p hp
        refine ⟨?_, hname r hrm p hp⟩
        simp only [List.mem_cons, List.mem_singleton, not_or]
        exact ⟨hpp r hrm p hp, hdt r hrm p hp, List.not_mem_nil _⟩
      · simp only [List.mem_cons, List.mem_singleton, not_or]
        exact ⟨hnp, hnd, List.not_mem_nil _⟩

/-- `get_df_with_acceleration` adds exactly the one named column. -/
theorem gdwaccel_addsOnly {ctx : GeoCtx} {ll : Bool} {conv : Conversion}
    {rows rows2 : List Row} {name : String}
    (hpp : ∀ r ∈ rows, ∀ p ∈ r.attrs, p.1 ≠ "prev_pt")
    (hdt : ∀ r ∈ rows, ∀ p ∈ r.attrs, p.1 ≠ "delta_t")
    (hst : ∀ r ∈ rows, ∀ p ∈ r.attrs, p.1 ≠ "speed_temp")
    (hname : ∀ r ∈ rows, ∀ p ∈ r.attrs, p.1 ≠ name)
    (hnst : name ≠ "speed_temp")
    (h : get_df_with_acceleration ctx ll conv rows name = .ok rows2) :
    AddsOnly name rows rows2 := by
  unfold get_df_with_acceleration at h
  cases hs : get_df_with_speed ctx ll conv rows "speed_temp" with
  | error e => rw [hs] at h; cases h
  | ok temp =>
    rw [hs] at h
    dsimp only [] at h
    have hAdd := gdwspeed_addsOnly hpp hdt hst (by decide) (by decide) hs
    cases hc : copySecondRowToFirst (setColVals temp name (accelVals temp conv.time2)) name with
    | error e => rw [hc] at h; cases h
    | ok out =>
      rw [hc] at h
      dsimp only [] at h
      cases h
      obtain ⟨v1, hout⟩ := copySecond_ok_inv hc
      rw [hout]
      apply addsOnly_pipeline ["speed_temp"]
      · exact hAdd.1
      · rw [length_accelVals, hAdd.1]
      · intro i r hr
        obtain ⟨v, hv⟩ := hAdd.2 i r hr
        exact ⟨[("speed_temp", v)], hv, by intro p hp; simp [List.mem_singleton.1 hp]⟩
      · intro r hrm p hp
        refine ⟨?_, hname r hrm p hp⟩
        simp only [List.mem_singleton]
        exact hst r hrm p hp
      · simpa using hnst

/-- `add_direction` adds exactly the one named column to the frame. -/
theorem add_direction_addsOnly {ctx : GeoCtx} {T : Traj} {ow : Bool} {name : String}
    {T2 : Traj}
    (hpp : ∀ r ∈ T.rows, ∀ p ∈ r.attrs, p.1 ≠ "prev_pt")
    (hname : ∀ r ∈ T.rows, ∀ p ∈ r.attrs, p.1 ≠ name)
    (hnp : name ≠ "prev_pt")
    (h : add_direction ctx T ow name = .ok T2) :
    AddsOnly name T.rows T2.rows := by
  unfold add_direction at h
  split at h
  · cases h
  · dsimp only [] at h
    cases hm : mapRows (compute_heading ctx T.is_latlon) (assignPrevPt T.rows) with
    | error e => rw [hm] at h; cases h
    | ok vals =>
      rw [hm] at h
      dsimp only [] at h
      cases hc : copySecondRowToFirst
          (setColVals (assignPrevPt T.rows) name (vals.map CellVal.num)) name with
      | error e => rw [hc] at h; cases h
      | ok out =>
        rw [hc] at h
        dsimp only [] at h
        cases h
        obtain ⟨v1, hout⟩ := copySecond_ok_inv hc
        rw [hout]
        apply addsOnly_pipeline ["prev_pt"]
        · rw [length_assignPrevPt]
        · rw [List.length_map, mapRows_ok_length hm, length_assignPrevPt]
        · intro i r hr
          obtain ⟨sv, hsv⟩ := assignPrevPt_shape hpp i r hr
          exact ⟨[("prev_pt", sv)], hsv, by intro p hp; simp [List.mem_singleton.1 hp]⟩
        · intro r hrm p hp
          refine ⟨?_, hname r hrm p hp⟩
          simp only [List.mem_singleton]
          exact hpp r hrm p hp
        · simpa using hnp

/-- `add_angular_difference` (when no direction column pre-exists) adds exactly
the one named column to the frame. -/
theorem add_angular_difference_addsOnly {ctx : GeoCtx} {T : Traj} {ow : Bool}
    {name : String} {T2 : Traj}
    (hdirnone : T.direction_col_name = none)
    (hdir : ∀ r ∈ T.rows, ∀ p ∈ r.attrs, p.1 ≠ "direction")
    (hpp : ∀ r ∈ T.rows, ∀ p ∈ r.attrs, p.1 ≠ "prev_pt")
    (hname : ∀ r ∈ T.rows, ∀ p ∈ r.attrs, p.1 ≠ name)
    (_hnp : name ≠ "prev_pt") (hnd : name ≠ "direction")
    (h : add_angular_difference ctx T ow name = .ok T2) :
    AddsOnly name T.rows T2.rows := by
  unfold add_angular_difference at h
  split at h
  · cases h
  · dsimp only [] at h
    have hdcn : get_direction_column_name T = "direction" := by
      unfold get_direction_column_name
      rw [hdirnone]
      rfl
    rw [hdcn] at h
    rw [contains_false_of_forall hdir] at h
    simp only [Bool.false_eq_true, if_false] at h
    cases hd1 : add_direction ctx T false "direction" with
    | error e => rw [hd1] at h; cases h
    | ok T1 =>
      rw [hd1] at h
      dsimp only [] at h
      have hAdd := add_direction_addsOnly hpp hdir (by decide) hd1
      cases hm : mapRows (compute_angular_difference ctx)
          (setColVals T1.rows ("prev_" ++ "direction")
            (shiftColVals T1.rows "direction")) with
      | error e => rw [hm] at h; cases h
      | ok vals =>
        rw [hm] at h
        dsimp only [] at h
        cases h
        apply addsOnly_pipeline ["direction"]
        · exact hAdd.1
        · rw [mapRows_ok_length hm, length_setColVals]
          unfold shiftColVals
          rw [length_shiftVals, List.length_map, hAdd.1]
          omega
        · intro i r hr
          obtain ⟨v, hv⟩ := hAdd.2 i r hr
          exact ⟨[("direction", v)], hv, by intro p hp; simp [List.mem_singleton.1 hp]⟩
        · intro r hrm p hp
          refine ⟨?_, hname r hrm p hp⟩
          simp only [List.mem_singleton]
          exact hdir r hrm p hp
        · simpa using hnd

/-- `add_timedelta` adds exactly the one named column to the frame. -/
theorem add_timedelta_addsOnly {T : Traj} {ow : Bool} {name : String} {T2 : Traj}
    (hname : ∀ r ∈ T.rows, ∀ p ∈ r.attrs, p.1 ≠ name)
    (h : add_timedelta T ow name = .ok T2) :
    AddsOnly name T.rows T2.rows := by
  unfold add_timedelta at h
  split at h
  · cases h
  · cases h
    constructor
    · unfold get_df_with_timedelta
      rw [length_setColVals, length_timedeltaVals]
      omega
    · intro i r hr
      obtain ⟨dv, hdv⟩ := gdwt_shape (hname) i r hr
      exact ⟨dv, hdv⟩

/-- C8, amended.  The spec's frame-effect sentence — each successful
`add_<metric>` call adds exactly the one named attribute column to every
sample, never removes or reorders existing attribute columns, and never
alters timestamps or positions — holds only when the existing attribute
columns are disjoint from the operation's transient working columns
(`prev_pt`, `delta_t`, `speed_temp`, `direction`) and from the new column's
name; a pre-existing user column with one of those names is silently
destroyed (see the counterexample).  Under those disjointness hypotheses,
every operation's successful result keeps each sample's timestamp, geometry
and attribute list intact and appends exactly one `(name, value)` cell, and
`add_angular_difference` leaks no transient `direction` column. -/
theorem frame_effect_amended (ctx : GeoCtx) (T : Traj) (name : String)
    (hpp : ∀ r ∈ T.rows, ∀ p ∈ r.attrs, p.1 ≠ "prev_pt")
    (hdt : ∀ r ∈ T.rows, ∀ p ∈ r.attrs, p.1 ≠ "delta_t")
    (hst : ∀ r ∈ T.rows, ∀ p ∈ r.attrs, p.1 ≠ "speed_temp")
    (hdir : ∀ r ∈ T.rows, ∀ p ∈ r.attrs, p.1 ≠ "direction")
    (hname : ∀ r ∈ T.rows, ∀ p ∈ r.attrs, p.1 ≠ name)
    (hnp : name ≠ "prev_pt") (hndt : name ≠ "delta_t")
    (hnst : name ≠ "speed_temp") (hndir : name ≠ "direction")
    (hdirnone : T.direction_col_name = none) :
    (∀ (ow : Bool) (conv : Conversion) (T2 : Traj),
      add_distance ctx T ow name conv = .ok T2 → AddsOnly name T.rows T2.rows) ∧
    (∀ (ow : Bool) (conv : Conversion) (T2 : Traj),
      add_speed ctx T ow name conv = .ok T2 → AddsOnly name T.rows T2.rows) ∧
    (∀ (ow : Bool) (conv : Conversion) (T2 : Traj),
      add_acceleration ctx T ow name conv = .ok T2 → AddsOnly name T.rows T2.rows) ∧
    (∀ (ow : Bool) (T2 : Traj),
      add_timedelta T ow name = .ok T2 → AddsOnly name T.rows T2.rows) ∧
    (∀ (ow : Bool) (T2 : Traj),
      add_direction ctx T ow name = .ok T2 → AddsOnly name T.rows T2.rows) ∧
    (∀ (ow : Bool) (T2 : Traj),
      add_angular_difference ctx T ow name = .ok T2 → AddsOnly name T.rows T2.rows) := by
  refine ⟨?_, ?_, ?_, ?_, ?_, ?_⟩
  · intro ow conv T2 h
    unfold add_distance at h
    split at h
    · cases h
    · cases hg : get_df_with_distance ctx T.is_latlon conv T.rows name with
      | error e => rw [hg] at h; cases h
      | ok rows =>
        rw [hg] at h
        dsimp only [] at h
        cases h
        exact gdwdist_addsOnly hpp hname hnp hg
  · intro ow conv T2 h
    unfold add_speed at h
    split at h
    · cases h
    · cases hg : get_df_with_speed ctx T.is_latlon conv T.rows name with
      | error e => rw [hg] at h; cases h
      | ok rows =>
        rw [hg] at h
        dsimp only [] at h
        cases h
        exact gdwspeed_addsOnly hpp hdt hname hnp hndt hg
  · intro ow conv T2 h
    unfold add_acceleration at h
    split at h
    · cases h
    · cases hg : get_df_with_acceleration ctx T.is_latlon conv T.rows name with
      | error e => rw [hg] at h; cases h
      | ok rows =>
        rw [hg] at h
        dsimp only [] at h
        cases h
        exact gdwaccel_addsOnly hpp hdt hst hname hnst hg
  · intro ow T2 h
    exact add_timedelta_addsOnly hname h
  · intro ow T2 h
    exact add_direction_addsOnly hpp hname hnp h
  · intro ow T2 h
    exact add_angular_difference_addsOnly hdirnone hdir hpp hname hnp hndir h

/-- Witness for the amended C8 at the concrete trajectory `trajW`. -/
theorem frame_effect_amended_witness :
    (∀ (ow : Bool) (conv : Conversion) (T2 : Traj),
      add_distance geoCtx0 trajW ow "x" conv = .ok T2 → AddsOnly "x" trajW.rows T2.rows) ∧
    (∀ (ow : Bool) (conv : Conversion) (T2 : Traj),
      add_speed geoCtx0 trajW ow "x" conv = .ok T2 → AddsOnly "x" trajW.rows T2.rows) ∧
    (∀ (ow : Bool) (conv : Conversion) (T2 : Traj),
      add_acceleration geoCtx0 trajW ow "x" conv = .ok T2 → AddsOnly "x" trajW.rows T2.rows) ∧
    (∀ (ow : Bool) (T2 : Traj),
      add_timedelta trajW ow "x" = .ok T2 → AddsOnly "x" trajW.rows T2.rows) ∧
    (∀ (ow : Bool) (T2 : Traj),
      add_direction geoCtx0 trajW ow "x" = .ok T2 → AddsOnly "x" trajW.rows T2.rows) ∧
    (∀ (ow : Bool) (T2 : Traj),
      add_angular_difference geoCtx0 trajW ow "x" = .ok T2 → AddsOnly "x" trajW.rows T2.rows) :=
  frame_effect_amended geoCtx0 trajW "x" (by decide) (by decide) (by decide) (by decide)
    (by decide) (by decide) (by decide) (by decide) (by decide) rfl
